import Mathlib

/-!
Verification of the hubproxy repository (Go).

We shallowly embed the relevant Go functions over `List Char` strings.
Modelling conventions:
* Go strings are modelled as `List Char` (`Str`), so positional operations
  (`take`/`drop`/`splitOn`) mirror Go's byte/rune slicing for the ASCII
  inputs these functions receive.
* `strings.ToLower` is modelled by ASCII case mapping (`lowerChar`), which
  agrees with Go on ASCII input; list entries, image names and repository
  names are ASCII in this program.
* `strings.TrimSpace` is modelled by trimming the ASCII whitespace set.
-/

namespace HubProxy

abbrev Str := List Char

/-- ASCII lower-casing of one character (models `strings.ToLower` per rune:
the codepoints 65-90 are `'A'`-`'Z'`). -/
def lowerChar (c : Char) : Char :=
  if 65 ≤ c.toNat ∧ c.toNat ≤ 90 then Char.ofNat (c.toNat + 32) else c

/-- `strings.ToLower` on ASCII strings. -/
def lowerStr (s : Str) : Str := s.map lowerChar

/-- ASCII whitespace (the cases of `unicode.IsSpace` that occur in ASCII:
space, tab, newline, carriage return). -/
def isSpaceChar (c : Char) : Bool :=
  c.toNat = 32 || c.toNat = 9 || c.toNat = 10 || c.toNat = 13

/-- `strings.TrimSpace`: drop leading and trailing whitespace. -/
def trimSpace (s : Str) : Str :=
  ((s.dropWhile isSpaceChar).reverse.dropWhile isSpaceChar).reverse

/-- `strings.HasPrefix p s` (Go argument order `HasPrefix(s, p)`). -/
def strHasPre (p s : Str) : Bool := p.isPrefixOf s

/-- `strings.HasSuffix s suf`. -/
def strHasSuf (suf s : Str) : Bool := suf.isSuffixOf s

/-- `strings.TrimPrefix(s, p)`. -/
def strTrimPre (p s : Str) : Str :=
  if strHasPre p s then s.drop p.length else s

/-- `strings.TrimSuffix(s, suf)`. -/
def strTrimSuf (suf s : Str) : Str :=
  if strHasSuf suf s then s.take (s.length - suf.length) else s

/-- Index of the first occurrence of `pat` in `s` (`strings.Index`). -/
def strIndex (pat : Str) : Str → Option Nat
  | [] => if pat = [] then some 0 else none
  | c :: rest =>
    if pat.isPrefixOf (c :: rest) then some 0
    else (strIndex pat rest).map (· + 1)

/-- Index of the last occurrence of character `c` (`strings.LastIndex(s, ":")`
for a one-character pattern), `none` when absent. -/
def lastIndexOfChar (c : Char) : Str → Option Nat
  | [] => none
  | x :: rest =>
    match lastIndexOfChar c rest with
    | some k => some (k + 1)
    | none => if x = c then some 0 else none

/-- `strings.Replace(s, pat, rep, 1)`: replace the first occurrence. -/
def replaceFirst (s pat rep : Str) : Str :=
  if pat = [] then s
  else
    match strIndex pat s with
    | none => s
    | some i => s.take i ++ rep ++ s.drop (i + pat.length)

/-! ## Access controller (part_002): ParseDockerImage, matchImageInList,
checkList, CheckDockerAccess, CheckGitHubAccess. -/

/-- `DockerImageInfo` (Go struct, field `Namespace` rendered `ns` since
`namespace` is a Lean keyword). -/
structure DockerImageInfo where
  ns : Str
  repo : Str
  tag : Str
  fullName : Str
deriving DecidableEq, Repr

/-- The tag-extraction step of `ParseDockerImage` (part_002): given the image
after the `docker://` trim, returns `(name, tag-portion)`, where the tag
portion is the text after the last `:` when that text contains no `/`
(otherwise, or when there is no `:`, the tag portion is empty and the name is
left intact). -/
def stripTag (image1 : Str) : Str × Str :=
  match lastIndexOfChar ':' image1 with
  | some idx =>
    let part := image1.drop (idx + 1)
    if part.contains '/' then (image1, ([] : Str)) else (image1.take idx, part)
  | none => (image1, ([] : Str))

/-- `ParseDockerImage`, continued: namespace/repository split and defaults.
The tag-stripping step is `stripTag` above (the `LastIndex(image, ":")` block
of the Go function). -/
def parseDockerImage (image0 : Str) : DockerImageInfo :=
  let image1 := strTrimPre "docker://".data image0
  let tagged := stripTag image1
  let image := tagged.1
  let tag := if tagged.2 = [] then "latest".data else tagged.2
  let nsRepo :=
    if image.contains '/' then
      let parts := image.splitOn '/'
      if parts.length ≥ 2 then
        if (parts.getD 0 []).contains '.' then
          if parts.length ≥ 3 then (parts.getD 1 [], parts.getD 2 [])
          else ("library".data, parts.getD 1 [])
        else (parts.getD 0 [], parts.getD 1 [])
      else (([] : Str), ([] : Str))
    else ("library".data, image)
  { ns := nsRepo.1, repo := nsRepo.2, tag := tag,
    fullName := nsRepo.1 ++ '/' :: nsRepo.2 }

/-- The loop body of `matchImageInList` (part_002): one list item checked
against the lower-cased full name `fullName`, lower-cased namespace `nspace`,
and the raw repository `repoRaw`.  Note that the `*/repoPrefix*` branch
compares `repoRaw` (Go: `imageInfo.Repository`) without lower-casing it,
exactly as in the source. -/
def matchImageItem (fullName nspace repoRaw : Str) (item0 : Str) : Bool :=
  let item := lowerStr (trimSpace item0)
  if item = [] then false
  else
    fullName = item
    || item = nspace || item = nspace ++ ['/', '*']
    || (strHasSuf ['*'] item && strHasPre (strTrimSuf ['*'] item) fullName)
    || (strHasPre ['*', '/'] item &&
          (let repoPattern := strTrimPre ['*', '/'] item
           if strHasSuf ['*'] repoPattern then
             strHasPre (strTrimSuf ['*'] repoPattern) repoRaw
           else lowerStr repoRaw = repoPattern))
    || strHasPre (item ++ ['/']) fullName

/-- `matchImageInList` from part_002.  The full name and namespace are
lower-cased once before the loop. -/
def matchImageInList (info : DockerImageInfo) (list : List Str) : Bool :=
  let fullName := lowerStr info.fullName
  let nspace := lowerStr info.ns
  list.any (matchImageItem fullName nspace info.repo)

/-- Lower-case every field of a `DockerImageInfo` (used to state what a
case-change of the image can affect). -/
def lowerInfo (info : DockerImageInfo) : DockerImageInfo :=
  { ns := lowerStr info.ns, repo := lowerStr info.repo,
    tag := lowerStr info.tag, fullName := lowerStr info.fullName }

/-- The normalisation of `matches[0]` in `checkList` (part_002):
`strings.ToLower(strings.TrimSpace(matches[0]))`. -/
def ghUser (u : Str) : Str := lowerStr (trimSpace u)

/-- The normalisation of `matches[1]` in `checkList` (part_002):
`strings.ToLower(strings.TrimSpace(strings.TrimSuffix(matches[1], ".git")))`. -/
def ghRepo (r : Str) : Str := lowerStr (trimSpace (strTrimSuf ".git".data r))

/-- The loop body of `checkList` (part_002): one list item checked against
the full repo name and the username. -/
def checkListItem (fullRepo username : Str) (item0 : Str) : Bool :=
  let item := lowerStr (trimSpace item0)
  if item = [] then false
  else
    fullRepo = item
    || item = username || item = username ++ ['/', '*']
    || (strHasSuf ['*'] item && strHasPre (strTrimSuf ['*'] item) fullRepo)
    || strHasPre (item ++ ['/']) fullRepo

/-- `checkList` from part_002 (GitHub user/repo matching).  Unlike
`matchImageInList` it has no `*/repo` branch. -/
def checkList (ms : List Str) (list : List Str) : Bool :=
  if ms.length < 2 then false
  else
    let username := ghUser (ms.getD 0 [])
    let repoName := ghRepo (ms.getD 1 [])
    let fullRepo := username ++ '/' :: repoName
    list.any (checkListItem fullRepo username)

/-- The `cfg.Proxy` white/black lists consulted by the access checks. -/
structure ProxyLists where
  whiteList : List Str
  blackList : List Str

/-- `CheckDockerAccess` from part_002, with the configuration lists passed
explicitly (the Go code reads them from `GetConfig().Proxy`). -/
def checkDockerAccess (image : Str) (cfg : ProxyLists) : Bool × Str :=
  let info := parseDockerImage image
  if cfg.whiteList.length > 0 && !(matchImageInList info cfg.whiteList) then
    (false, "不在Docker镜像白名单内".data)
  else if cfg.blackList.length > 0 && matchImageInList info cfg.blackList then
    (false, "Docker镜像在黑名单内".data)
  else (true, [])

/-- `CheckGitHubAccess` from part_002. -/
def checkGitHubAccess (ms : List Str) (cfg : ProxyLists) : Bool × Str :=
  if ms.length < 2 then (false, "无效的GitHub仓库格式".data)
  else if cfg.whiteList.length > 0 && !(checkList ms cfg.whiteList) then
    (false, "不在GitHub仓库白名单内".data)
  else if cfg.blackList.length > 0 && checkList ms cfg.blackList then
    (false, "GitHub仓库在黑名单内".data)
  else (true, [])

/-! ## Generic URL proxy redirect handling (part_001 `proxyWithRedirect`,
identical guard in src/main.go). -/

/-- One upstream HTTP response, as far as `proxyWithRedirect` inspects it:
whether `client.Do` failed, the declared `Content-Length` (when present and
parseable), and the `Location` header (when non-empty). -/
structure UpResp where
  err : Bool
  contentLength : Option Int
  location : Option Str
deriving DecidableEq, Repr

/-- Outcome of `proxyWithRedirect` towards the client. -/
inductive ProxyResult where
  | loop508 (msg : Str)
  | upstreamError
  | tooLarge413
  | rewritten (loc : Str)
  | streamed
deriving DecidableEq, Repr

/-- `const maxRedirects = 20` in `proxyWithRedirect`. -/
def maxRedirects : Nat := 20

/-- `proxyWithRedirect(c, u, redirectCount)` (part_001 lines 189-306; the
redirect-relevant control flow is identical in src/main.go lines 136-235):
`up hop` is the upstream response to the hop-th request of the chain, `chk`
models `checkURL(location) != nil`, and `fileSize` is `cfg.Server.FileSize`.
Returns the client-visible outcome and the number of outbound upstream
requests issued.  The guard `redirectCount > maxRedirects` and the
recursion on `redirectCount + 1` follow the source exactly; the request to
the upstream happens in every call that passes the guard. -/
def proxyWithRedirect (up : Nat → UpResp) (chk : Str → Bool) (fileSize : Int) :
    Nat → ProxyResult × Nat
  | redirectCount =>
    if _h : redirectCount > maxRedirects then
      (.loop508 "重定向次数过多，可能存在循环重定向".data, 0)
    else
      let resp := up redirectCount
      if resp.err then (.upstreamError, 1)
      else if (match resp.contentLength with
               | some size => decide (size > fileSize)
               | none => false) then (.tooLarge413, 1)
      else
        match resp.location with
        | some loc =>
          if chk loc then (.rewritten loc, 1)
          else
            let r := proxyWithRedirect up chk fileSize (redirectCount + 1)
            (r.1, r.2 + 1)
        | none => (.streamed, 1)
  termination_by rc => maxRedirects + 1 - rc
  decreasing_by simp_wf; unfold maxRedirects at *; omega

/-- The upstream used in the C1 counterexample: every request answers with a
Location that never matches the proxy's URL table. -/
def loopUpstream : Nat → UpResp := fun _ =>
  { err := false, contentLength := none, location := some ['x'] }

/-! ## Config store (part_003): DefaultConfig, GetConfig, setConfig,
overrideFromEnv, hotReloadWithViper. -/

/-- `RegistryMapping` (part_003). -/
structure RegistryMapping where
  upstream : Str
  authHost : Str
  authType : Str
  enabled : Bool
deriving DecidableEq, Repr

/-- `AppConfig` (part_003), with nested structs flattened into prefixed
fields.  `PeriodHours` is a Go `float64`; it is modelled as a rational —
no floating-point arithmetic occurs in the behaviour verified here. -/
structure AppConfig where
  serverHost : Str
  serverPort : Int
  serverFileSize : Int
  rateRequestLimit : Int
  ratePeriodHours : ℚ
  securityWhiteList : List Str
  securityBlackList : List Str
  proxyWhiteList : List Str
  proxyBlackList : List Str
  downloadMaxImages : Int
  registries : List (Str × RegistryMapping)
  tokenCacheEnabled : Bool
  tokenCacheDefaultTTL : Str
deriving DecidableEq

/-- `DefaultConfig()` (part_003). -/
def DefaultConfig : AppConfig where
  serverHost := "0.0.0.0".data
  serverPort := 5000
  serverFileSize := 2 * 1024 * 1024 * 1024
  rateRequestLimit := 20
  ratePeriodHours := 1
  securityWhiteList := []
  securityBlackList := []
  proxyWhiteList := []
  proxyBlackList := []
  downloadMaxImages := 10
  registries :=
    [("ghcr.io".data,
      { upstream := "ghcr.io".data, authHost := "ghcr.io/token".data,
        authType := "github".data, enabled := true }),
     ("gcr.io".data,
      { upstream := "gcr.io".data, authHost := "gcr.io/v2/token".data,
        authType := "google".data, enabled := true }),
     ("quay.io".data,
      { upstream := "quay.io".data, authHost := "quay.io/v2/auth".data,
        authType := "quay".data, enabled := true }),
     ("registry.k8s.io".data,
      { upstream := "registry.k8s.io".data, authHost := "registry.k8s.io".data,
        authType := "anonymous".data, enabled := true })]
  tokenCacheEnabled := true
  tokenCacheDefaultTTL := "20m".data

/-- The mutable state of the config store (part_003 globals `appConfig`,
`cachedConfig`, `configCacheTime`); time is an integer timestamp in seconds. -/
structure ConfigStoreState where
  appConfig : Option AppConfig
  cachedConfig : Option AppConfig
  configCacheTime : Int
deriving DecidableEq

/-- `configCacheTTL = 5 * time.Second`, in seconds. -/
def configCacheTTL : Int := 5

/-- The cache-miss path of `GetConfig` (part_003): default config when no
snapshot is published, otherwise a deep copy of the published snapshot (the
slice copies of the Go code are the identity under value semantics). -/
def genConfig (now : Int) (s : ConfigStoreState) : AppConfig × ConfigStoreState :=
  match s.appConfig with
  | none =>
    (DefaultConfig, { s with cachedConfig := some DefaultConfig, configCacheTime := now })
  | some cfg =>
    (cfg, { s with cachedConfig := some cfg, configCacheTime := now })

/-- `GetConfig()` (part_003): serve the cached copy while it is younger than
`configCacheTTL`, else regenerate it from `appConfig` (the double-checked
branch under the write lock repeats the same test and is collapsed here). -/
def getConfig (now : Int) (s : ConfigStoreState) : AppConfig × ConfigStoreState :=
  match s.cachedConfig with
  | some cached =>
    if now - s.configCacheTime < configCacheTTL then (cached, s)
    else genConfig now s
  | none => genConfig now s

/-- `setConfig(cfg)` (part_003): publish the new snapshot and invalidate the
cached copy. -/
def setConfig (cfg : AppConfig) (s : ConfigStoreState) : ConfigStoreState :=
  { appConfig := some cfg, cachedConfig := none, configCacheTime := s.configCacheTime }

/-- The parsed environment overrides consumed by `overrideFromEnv`
(part_003).  Each field is the `strconv`-parsed value of the corresponding
environment variable, `none` when it is unset, empty, or unparseable. -/
structure EnvVars where
  serverHost : Option Str
  serverPort : Option Int
  maxFileSize : Option Int
  rateLimit : Option Int
  ratePeriodHours : Option ℚ
  ipWhiteList : Option (List Str)
  ipBlackList : Option (List Str)
  maxImages : Option Int

/-- `overrideFromEnv(cfg)` (part_003), keeping the positivity guards of the
source. -/
def overrideFromEnv (env : EnvVars) (cfg : AppConfig) : AppConfig :=
  let cfg := match env.serverHost with
    | some v => { cfg with serverHost := v }
    | none => cfg
  let cfg := match env.serverPort with
    | some port => if port > 0 then { cfg with serverPort := port } else cfg
    | none => cfg
  let cfg := match env.maxFileSize with
    | some size => if size > 0 then { cfg with serverFileSize := size } else cfg
    | none => cfg
  let cfg := match env.rateLimit with
    | some limit => if limit > 0 then { cfg with rateRequestLimit := limit } else cfg
    | none => cfg
  let cfg := match env.ratePeriodHours with
    | some period => if period > 0 then { cfg with ratePeriodHours := period } else cfg
    | none => cfg
  let cfg := match env.ipWhiteList with
    | some vs => { cfg with securityWhiteList := cfg.securityWhiteList ++ vs }
    | none => cfg
  let cfg := match env.ipBlackList with
    | some vs => { cfg with securityBlackList := cfg.securityBlackList ++ vs }
    | none => cfg
  match env.maxImages with
  | some m => if m > 0 then { cfg with downloadMaxImages := m } else cfg
  | none => cfg

/-- `hotReloadWithViper()` (part_003): on a parse error the function logs
and returns, publishing nothing; on success it applies the environment
overrides and publishes via `setConfig`. -/
def hotReloadWithViper (parsed : Except Str AppConfig) (env : EnvVars)
    (s : ConfigStoreState) : ConfigStoreState :=
  match parsed with
  | .error _ => s
  | .ok cfg => setConfig (overrideFromEnv env cfg) s

/-! ## IP parsing (Go net.ParseIP / net.ParseCIDR) and the rate limiter
CIDR machinery (part_004). -/

/-- Go `dtoi`: parse a decimal prefix; `none` when there is no digit or the
value reaches the `big` cutoff `0xFFFFFF` (in Go this returns `ok=false`,
which every caller treats as a parse failure). -/
def dtoi (s : Str) : Option (Nat × Nat) :=
  let digits := s.takeWhile fun c => 48 ≤ c.toNat && c.toNat ≤ 57
  if digits = [] then none
  else
    let n := digits.foldl (fun acc c => acc * 10 + (c.toNat - 48)) 0
    if 0xFFFFFF ≤ n then none else some (n, digits.length)

def isHexDigit (c : Char) : Bool :=
  (48 ≤ c.toNat && c.toNat ≤ 57) || (97 ≤ c.toNat && c.toNat ≤ 102) ||
  (65 ≤ c.toNat && c.toNat ≤ 70)

def hexVal (c : Char) : Nat :=
  if c.toNat ≤ 57 then c.toNat - 48
  else if c.toNat ≤ 70 then c.toNat - 55
  else c.toNat - 87

/-- Go `xtoi`: parse a hexadecimal prefix, with the same `big` cutoff. -/
def xtoi (s : Str) : Option (Nat × Nat) :=
  let digits := s.takeWhile isHexDigit
  if digits = [] then none
  else
    let n := digits.foldl (fun acc c => acc * 16 + hexVal c) 0
    if 0xFFFFFF ≤ n then none else some (n, digits.length)

/-- One dotted-decimal octet of Go `parseIPv4`: value ≤ 255 and no leading
zero (Go rejects them since 1.17). -/
def parseOctet (s : Str) : Option (Nat × Str) :=
  match dtoi s with
  | none => none
  | some (n, c) =>
    if 255 < n then none
    else if 1 < c ∧ s.headD ' ' = '0' then none
    else some (n, s.drop c)

def expectDot : Str → Option Str
  | '.' :: rest => some rest
  | _ => none

/-- Go `parseIPv4`: exactly four octets separated by dots, nothing left.
Returns the 4 address bytes. -/
def parseIPv4 (s : Str) : Option (List Nat) := do
  let (a, s) ← parseOctet s
  let s ← expectDot s
  let (b, s) ← parseOctet s
  let s ← expectDot s
  let (c, s) ← parseOctet s
  let s ← expectDot s
  let (d, s) ← parseOctet s
  if s = [] then some [a, b, c, d] else none

/-- The loop of Go `parseIPv6` over hex groups: `acc` is the bytes parsed so
far (Go index `i = acc.length`), `ell` the byte position of `::` when seen.
`fuel` only bounds the recursion; 9 suffices since every iteration either
consumes a group (two bytes) or stops. -/
def parseIPv6Loop (fuel : Nat) (s : Str) (acc : List Nat) (ell : Option Nat) :
    Option (List Nat × Option Nat) :=
  if 16 ≤ acc.length then (if s = [] then some (acc, ell) else none)
  else match fuel with
  | 0 => none
  | fuel + 1 =>
    match xtoi s with
    | none => none
    | some (n, c) =>
      if 0xFFFF < n then none
      else if c < s.length ∧ s.getD c ' ' = '.' then
        if ell = none ∧ acc.length ≠ 12 then none
        else if 16 < acc.length + 4 then none
        else
          match parseIPv4 s with
          | none => none
          | some b4 => some (acc ++ b4, ell)
      else
        let acc2 := acc ++ [n / 256, n % 256]
        let s2 := s.drop c
        if s2 = [] then some (acc2, ell)
        else if s2.headD ' ' ≠ ':' ∨ s2.length = 1 then none
        else
          let s3 := s2.drop 1
          if s3.headD ' ' = ':' then
            if ell.isSome then none
            else
              let s4 := s3.drop 1
              if s4 = [] then some (acc2, some acc2.length)
              else parseIPv6Loop fuel s4 acc2 (some acc2.length)
          else parseIPv6Loop fuel s3 acc2 ell

/-- Go `parseIPv6`: handles a leading `::`, runs the group loop, and expands
the `::` gap with zero bytes.  Returns 16 bytes. -/
def parseIPv6 (s : Str) : Option (List Nat) :=
  let init : Str × Option Nat :=
    if 2 ≤ s.length ∧ s.headD ' ' = ':' ∧ s.getD 1 ' ' = ':' then (s.drop 2, some 0)
    else (s, none)
  if init.2 = some 0 ∧ init.1 = [] then some (List.replicate 16 0)
  else
    match parseIPv6Loop 9 init.1 [] init.2 with
    | none => none
    | some (acc, ell) =>
      if acc.length < 16 then
        match ell with
        | none => none
        | some e => some (acc.take e ++ List.replicate (16 - acc.length) 0 ++ acc.drop e)
      else
        match ell with
        | some _ => none
        | none => some acc

/-- Go `net.ParseIP`: the first `.` or `:` decides the family; the result is
the canonical 16-byte form (IPv4 embedded behind the v4-in-v6 prefix). -/
def parseIP (s : Str) : Option (List Nat) :=
  match s.find? fun c => c == '.' || c == ':' with
  | some c =>
    if c == '.' then
      (parseIPv4 s).map fun b4 => [0, 0, 0, 0, 0, 0, 0, 0, 0, 0, 255, 255] ++ b4
    else parseIPv6 s
  | none => none

/-- Go `IP.To4() != nil` on a canonical 16-byte address. -/
def isV4in6 (p : List Nat) : Bool :=
  p.length = 16 && (p.take 10).all (· = 0) && p.getD 10 0 = 255 && p.getD 11 0 = 255

/-- Byte `i` of Go `net.CIDRMask(bits, 8*len)`. -/
def cidrMaskByte (bits i : Nat) : Nat :=
  if 8 * (i + 1) ≤ bits then 255
  else if bits ≤ 8 * i then 0
  else 256 - 2 ^ (8 - (bits - 8 * i))

/-- `ip.Mask(m)`: byte-wise AND with the CIDR mask. -/
def maskBytes (p : List Nat) (bits : Nat) : List Nat :=
  (List.range p.length).map fun i => (p.getD i 0) &&& cidrMaskByte bits i

/-- Go `net.ParseCIDR`: split at the first `/`, parse the address (IPv4
first, else IPv6) and the decimal prefix length, and return the masked
network with its prefix length (4 network bytes for IPv4, 16 for IPv6). -/
def parseCIDR (s : Str) : Option (List Nat × Nat) :=
  match strIndex ['/'] s with
  | none => none
  | some i =>
    let addr := s.take i
    let mask := s.drop (i + 1)
    match dtoi mask with
    | none => none
    | some (n, c) =>
      if c ≠ mask.length then none
      else
        match parseIPv4 addr with
        | some b4 => if n ≤ 32 then some (maskBytes b4 n, n) else none
        | none =>
          match parseIPv6 addr with
          | some b16 => if n ≤ 128 then some (maskBytes b16 n, n) else none
          | none => none

/-- Go `IPNet.Contains`: convert a v4-in-v6 address to 4 bytes, require the
byte lengths to agree, and compare under the mask. -/
def ipNetContains (net : List Nat × Nat) (ip16 : List Nat) : Bool :=
  let ip := if isV4in6 ip16 then ip16.drop 12 else ip16
  net.1.length = ip.length &&
  (List.range net.1.length).all fun i =>
    (net.1.getD i 0) &&& cidrMaskByte net.2 i = (ip.getD i 0) &&& cidrMaskByte net.2 i

/-- The white/black-list construction loop of `initGlobalLimiter`
(part_004 lines 37-92): trim each entry, skip empty ones, append `"/32"`
to entries without `/` (the comment says 单个IP转为CIDR格式 — convert a
single IP to CIDR form), parse, and keep the successfully parsed networks. -/
def buildCIDRList (entries : List Str) : List (List Nat × Nat) :=
  entries.filterMap fun item0 =>
    let item := trimSpace item0
    if item = [] then none
    else
      let item2 := if item.contains '/' then item else item ++ "/32".data
      parseCIDR item2

/-- Go `net.SplitHostPort`: the last `:` separates host and port; a
bracketed `[...]` host may contain colons, an unbracketed one may not.
(The bracket-validation corner cases of the Go function beyond these rules
are not exercised by the claims.) -/
def splitHostPort (s : Str) : Option (Str × Str) :=
  match lastIndexOfChar ':' s with
  | none => none
  | some i =>
    if s.headD ' ' = '[' then
      match strIndex [']'] s with
      | none => none
      | some j => if j + 1 = i then some ((s.take j).drop 1, s.drop (i + 1)) else none
    else
      let host := s.take i
      if host.contains ':' then none else some (host, s.drop (i + 1))

/-- `extractIPFromAddress` (part_004): strip a port when present. -/
def extractIPFromAddress (address : Str) : Str :=
  match splitHostPort address with
  | some (host, _) => host
  | none => address

/-- `isIPInCIDRList` (part_004): extract the bare IP, parse it, and test the
CIDR list; an unparseable IP is never in any list. -/
def isIPInCIDRList (ip : Str) (cidrList : List (List Nat × Nat)) : Bool :=
  let cleanIP := extractIPFromAddress ip
  match parseIP cleanIP with
  | none => false
  | some p => cidrList.any fun c => ipNetContains c p

/-! ## Rate-limit middleware (part_004 `RateLimitMiddleware`, `GetLimiter`). -/

/-- The static-path exemption test at the top of `RateLimitMiddleware`. -/
def isExemptPath (path : Str) : Bool :=
  path = "/".data || path = "/favicon.ico".data || path = "/images.html".data ||
  path = "/search.html".data || strHasPre "/public/".data path

/-- The client-IP resolution chain of `RateLimitMiddleware`: first
`X-Forwarded-For` value, else `X-Real-IP`, else first
`X-Original-Forwarded-For` value, else the transport peer address
(`c.ClientIP()`).  A header that is unset or empty is `none`. -/
def resolveClientIP (xff xrip xoff : Option Str) (clientIP : Str) : Str :=
  match xff with
  | some f => trimSpace ((f.splitOn ',').getD 0 [])
  | none =>
    match xrip with
    | some rip => rip
    | none =>
      match xoff with
      | some f => trimSpace ((f.splitOn ',').getD 0 [])
      | none => clientIP

/-- `GetLimiter(ip)` (part_004), at the granularity the middleware observes:
`(allowed, limiterAllow)` where `allowed = false` means the IP is in the
deny list (nil limiter), a white-listed IP gets an infinite-rate bucket
(`rate.NewLimiter(rate.Inf, b).Allow()` is always true), and otherwise the
per-key token bucket decides — its `Allow()` outcome is the abstract
`bucketAllow` (the bucket is external library state). -/
def getLimiterDecision (ip : Str) (blacklist whitelist : List (List Nat × Nat))
    (bucketAllow : Bool) : Bool × Bool :=
  let cleanIP := extractIPFromAddress ip
  if isIPInCIDRList cleanIP blacklist then (false, false)
  else if isIPInCIDRList cleanIP whitelist then (true, true)
  else (true, bucketAllow)

/-- Outcome of `RateLimitMiddleware` towards the request pipeline. -/
inductive MWResult where
  | exempt
  | denied (status : Nat) (body : Str)
  | limited (status : Nat) (body : Str)
  | pass
deriving DecidableEq, Repr

/-- The serialisation of `gin.H{"error": msg}` used by the middleware. -/
def ginJSONError (msg : Str) : Str :=
  "\x7b\"error\":\"".data ++ msg ++ "\"\x7d".data

/-- `RateLimitMiddleware` (part_004 lines 231-301): exemption check, client
IP resolution, `GetLimiter`, and the 403/429 abort responses. -/
def rateLimitMiddleware (path : Str) (xff xrip xoff : Option Str) (clientIP : Str)
    (blacklist whitelist : List (List Nat × Nat)) (bucketAllow : Bool) : MWResult :=
  if isExemptPath path then .exempt
  else
    let ip := resolveClientIP xff xrip xoff clientIP
    let cleanIP := extractIPFromAddress ip
    let d := getLimiterDecision cleanIP blacklist whitelist bucketAllow
    if !d.1 then .denied 403 (ginJSONError "您已被限制访问".data)
    else if !d.2 then .limited 429 (ginJSONError "请求频率过快，暂时限制访问".data)
    else .pass

/-! ## The URL-pattern table `exps` and `checkURL`/`handler` (part_001).

Each Go regular expression is hand-compiled to a deterministic matcher.
Every pattern begins with `^(?:https?://)?`; since no pattern host starts
with the letters "http", greedily consuming a literal scheme is equivalent
to the regex alternation, and it is shared as `stripScheme`.  `([^/]+)`
captures are maximal slash-free runs (`takeSeg`), and `.+?/.+` reduces to
"some inner `/` with at least one character on each side"
(`hasInnerSlash`). -/

def stripScheme (s : Str) : Str :=
  if strHasPre "https://".data s then s.drop 8
  else if strHasPre "http://".data s then s.drop 7
  else s

def stripPreOpt (p s : Str) : Option Str :=
  if strHasPre p s then some (s.drop p.length) else none

/-- `([^/]+)/`: the maximal nonempty slash-free prefix followed by `/`. -/
def takeSeg (s : Str) : Option (Str × Str) :=
  let seg := s.takeWhile (· != '/')
  if seg = [] then none
  else
    match s.drop seg.length with
    | '/' :: r => some (seg, r)
    | _ => none

/-- `.+?/.+`: a `/` at a position `1 ≤ i ≤ length - 2`. -/
def hasInnerSlash (r : Str) : Bool :=
  ((r.drop 1).dropLast).contains '/'

/-- `(?:usercontent|)\.com/` after `raw.github` / `gist.github`. -/
def stripGithubHostTail (r : Str) : Option Str :=
  match stripPreOpt "usercontent.com/".data r with
  | some r2 => some r2
  | none => stripPreOpt ".com/".data r

/-- exps[0]: `^(?:https?://)?github\.com/([^/]+)/([^/]+)/(?:releases|archive)/.*$` -/
def matchExp0 (s : Str) : Option (List Str) := do
  let r ← stripPreOpt "github.com/".data (stripScheme s)
  let (u, r) ← takeSeg r
  let (p, r) ← takeSeg r
  if strHasPre "releases/".data r || strHasPre "archive/".data r then some [u, p] else none

/-- exps[1]: `^(?:https?://)?github\.com/([^/]+)/([^/]+)/(?:blob|raw)/.*$` -/
def matchExp1 (s : Str) : Option (List Str) := do
  let r ← stripPreOpt "github.com/".data (stripScheme s)
  let (u, r) ← takeSeg r
  let (p, r) ← takeSeg r
  if strHasPre "blob/".data r || strHasPre "raw/".data r then some [u, p] else none

/-- exps[2]: `^(?:https?://)?github\.com/([^/]+)/([^/]+)/(?:info|git-).*$` -/
def matchExp2 (s : Str) : Option (List Str) := do
  let r ← stripPreOpt "github.com/".data (stripScheme s)
  let (u, r) ← takeSeg r
  let (p, r) ← takeSeg r
  if strHasPre "info".data r || strHasPre "git-".data r then some [u, p] else none

/-- exps[3]: `^(?:https?://)?raw\.github(?:usercontent|)\.com/([^/]+)/([^/]+)/.+?/.+$` -/
def matchExp3 (s : Str) : Option (List Str) := do
  let r ← stripPreOpt "raw.github".data (stripScheme s)
  let r ← stripGithubHostTail r
  let (u, r) ← takeSeg r
  let (p, r) ← takeSeg r
  if hasInnerSlash r then some [u, p] else none

/-- exps[4]: `^(?:https?://)?gist\.github(?:usercontent|)\.com/([^/]+)/.+?/.+`
— note the single capture group. -/
def matchExp4 (s : Str) : Option (List Str) := do
  let r ← stripPreOpt "gist.github".data (stripScheme s)
  let r ← stripGithubHostTail r
  let (u, r) ← takeSeg r
  if hasInnerSlash r then some [u] else none

/-- exps[5]: `^(?:https?://)?api\.github\.com/repos/([^/]+)/([^/]+)/.*` -/
def matchExp5 (s : Str) : Option (List Str) := do
  let r ← stripPreOpt "api.github.com/repos/".data (stripScheme s)
  let (u, r) ← takeSeg r
  let (p, _) ← takeSeg r
  some [u, p]

/-- The `/([^/]+)/(.+)$` tail shared by both branches of exps[6]. -/
def hfTail (r : Str) : Option (List Str) :=
  match r with
  | '/' :: r2 => do
    let (u, r3) ← takeSeg r2
    if r3 ≠ [] then some [u, r3] else none
  | _ => none

/-- exps[6]: `^(?:https?://)?huggingface\.co(?:/spaces)?/([^/]+)/(.+)$`
(the optional `/spaces` is tried greedily first, as the regex engine does). -/
def matchExp6 (s : Str) : Option (List Str) := do
  let r ← stripPreOpt "huggingface.co".data (stripScheme s)
  match (if strHasPre "/spaces".data r then hfTail (r.drop 7) else none) with
  | some m => some m
  | none => hfTail r

/-- The `/([^/]+)/([^/]+)(?:/(.*))?$` tail of exps[7]; an unmatched third
group is the empty string in Go submatches. -/
def cdnTail (r : Str) : Option (List Str) :=
  match r with
  | '/' :: r2 => do
    let (u, r3) ← takeSeg r2
    let p := r3.takeWhile (· != '/')
    if p = [] then none
    else
      match r3.drop p.length with
      | [] => some [u, p, []]
      | '/' :: g3 => some [u, p, g3]
      | _ => none
  | _ => none

/-- exps[7]: `^(?:https?://)?cdn-lfs\.hf\.co(?:/spaces)?/([^/]+)/([^/]+)(?:/(.*))?$` -/
def matchExp7 (s : Str) : Option (List Str) := do
  let r ← stripPreOpt "cdn-lfs.hf.co".data (stripScheme s)
  match (if strHasPre "/spaces".data r then cdnTail (r.drop 7) else none) with
  | some m => some m
  | none => cdnTail r

/-- exps[8]: `^(?:https?://)?download\.docker\.com/([^/]+)/.*\.(tgz|zip)$` -/
def matchExp8 (s : Str) : Option (List Str) := do
  let r ← stripPreOpt "download.docker.com/".data (stripScheme s)
  let (u, r) ← takeSeg r
  if strHasSuf ".tgz".data r then some [u, "tgz".data]
  else if strHasSuf ".zip".data r then some [u, "zip".data]
  else none

/-- exps[9]: `^(?:https?://)?(github|opengraph)\.githubassets\.com/([^/]+)/.+?$` -/
def matchExp9 (s : Str) : Option (List Str) := do
  let r := stripScheme s
  let gr ←
    match stripPreOpt "github.githubassets.com/".data r with
    | some r2 => some ("github".data, r2)
    | none =>
      match stripPreOpt "opengraph.githubassets.com/".data r with
      | some r2 => some ("opengraph".data, r2)
      | none => none
  let (p, r2) ← takeSeg gr.2
  if r2 ≠ [] then some [gr.1, p] else none

/-- `checkURL` (part_001): first matching pattern wins; the Go function
returns `matches[1:]`, i.e. the capture groups only. -/
def checkURL (u : Str) : Option (List Str) :=
  matchExp0 u <|> matchExp1 u <|> matchExp2 u <|> matchExp3 u <|> matchExp4 u <|>
  matchExp5 u <|> matchExp6 u <|> matchExp7 u <|> matchExp8 u <|> matchExp9 u

/-- The target normalisation at the top of `handler` (part_001 lines
141-156): strip all leading `/` from the request URI, then fix the scheme.
Note the `else if HasPrefix("http://")` branch of the source is dead code,
because `http://` targets already satisfy the `http:/` test; it is kept
here as in the source. -/
def normalizeTarget (rawPath0 : Str) : Str :=
  let rawPath := rawPath0.dropWhile (· == '/')
  if strHasPre "https://".data rawPath then rawPath
  else
    let rawPath :=
      if strHasPre "http:/".data rawPath || strHasPre "https:/".data rawPath then
        replaceFirst (replaceFirst rawPath "http:/".data []) "https:/".data []
      else if strHasPre "http://".data rawPath then rawPath.drop 7
      else rawPath
    "https://".data ++ rawPath

/-- What `handler` (part_001 lines 140-183) does with a request: reject with
403, or forward the (possibly blob→raw rewritten) URL to
`proxyRequest`. -/
inductive HandlerResult where
  | forbidden (status : Nat) (body : Str)
  | forward (url : Str)
deriving DecidableEq, Repr

/-- `handler` (part_001): normalise the target, match it against the table,
consult `CheckGitHubAccess`, rewrite `/blob/` to `/raw/` for pattern 1, and
forward. -/
def handler (rawPath0 : Str) (cfg : ProxyLists) : HandlerResult :=
  let rawPath := normalizeTarget rawPath0
  match checkURL rawPath with
  | some ms =>
    let res := checkGitHubAccess ms cfg
    if !res.1 then .forbidden 403 res.2
    else
      let rawPath2 :=
        if (matchExp1 rawPath).isSome then
          replaceFirst rawPath "/blob/".data "/raw/".data
        else rawPath
      .forward rawPath2
  | none => .forbidden 403 "无效输入".data

/-! ## `normalizeIPForRateLimit` (part_004) and the Go IPv6 printer.

`normalizeIPForRateLimit` returns the input text unchanged for IPv4 (and
unparseable) inputs, and `ip.String() + "/64"` after zeroing bytes 8..15
for IPv6.  `net.IP.String()` for a 16-byte non-v4 address finds the
leftmost longest run of at least two zero 16-bit groups and prints the
groups in lower-case hexadecimal with `::` eliding that run.  The scan and
print loops below mirror the Go code in group units (Go steps bytes two at
a time, which is one group): `e0`/`e1` are the group bounds of the elided
run, initialised to `0`/`0` which has the same difference as Go's −1/−1
sentinel, and a run is recorded when its length exceeds `e1 - e0`.  The
`fuel` parameters only bound the recursion; 9 exceeds the eight groups. -/

/-- The loop `for i := 8; i < 16; i++ { ipv6[i] = 0 }`. -/
def zeroLowerHalf (p : List Nat) : List Nat := p.take 8 ++ List.replicate 8 0

/-- Big-endian 16-bit groups of a byte list. -/
def ipGroups : List Nat → List Nat
  | a :: b :: rest => (a * 256 + b) :: ipGroups rest
  | _ => []

/-- Length of the leading zero run (Go's inner `j` loop, in groups). -/
def zeroRunLen : List Nat → Nat
  | [] => 0
  | g :: rest => if g = 0 then 1 + zeroRunLen rest else 0

/-- Go's scan for the leftmost longest zero run (`e0`, `e1` in groups). -/
def findZeroRun (fuel : Nat) (gs : List Nat) (i e0 e1 : Nat) : Nat × Nat :=
  match fuel with
  | 0 => (e0, e1)
  | fuel + 1 =>
    match gs with
    | [] => (e0, e1)
    | g :: rest =>
      let r := zeroRunLen (g :: rest)
      if 0 < r ∧ e1 - e0 < r then
        findZeroRun fuel ((g :: rest).drop (r + 1)) (i + r + 1) i (i + r)
      else
        findZeroRun fuel rest (i + 1) e0 e1

/-- `hexDigit[v]` of Go's `appendHex`. -/
def hexDigitChar (n : Nat) : Char :=
  if n < 10 then Char.ofNat (48 + n) else Char.ofNat (87 + n)

/-- Go `appendHex`: lower-case hexadecimal without leading zeros, `"0"` for
zero.  The fuel is the maximal number of nibbles; Go's argument is a
`uint32`, so 8 always suffices. -/
def toHexCore : Nat → Nat → List Char
  | 0, _ => []
  | fuel + 1, n =>
    if n < 16 then [hexDigitChar n]
    else toHexCore fuel (n / 16) ++ [hexDigitChar (n % 16)]

def toHexChars (n : Nat) : List Char := toHexCore 8 n

/-- Go's print loop: `::` at `e0` (when a run of ≥ 2 groups was found),
jumping to group `e1` which is printed without a `:` separator. -/
def ip6PrintLoop (fuel : Nat) (gs : List Nat) (i e0 e1 : Nat) (hasRun : Bool) :
    List Char :=
  match fuel with
  | 0 => []
  | fuel + 1 =>
    if 8 ≤ i then []
    else if hasRun ∧ i = e0 then
      ':' :: ':' ::
        (if 8 ≤ e1 then []
         else toHexChars (gs.getD e1 0) ++ ip6PrintLoop fuel gs (e1 + 1) e0 e1 hasRun)
    else
      (if 0 < i then [':'] else []) ++ toHexChars (gs.getD i 0) ++
        ip6PrintLoop fuel gs (i + 1) e0 e1 hasRun

/-- `net.IP.String()` on the 16-bit groups of a 16-byte non-v4 address
(Go drops a recorded run of a single group: `e1-e0 <= 2` bytes). -/
def ip6StringGroups (gs : List Nat) : List Char :=
  let e := findZeroRun 9 gs 0 0 0
  ip6PrintLoop 9 gs 0 e.1 e.2 (decide (2 ≤ e.2 - e.1))

/-- `net.IP.String()` for a 16-byte address that is not v4-mapped (the
callers below only print zeroed-lower-half addresses, whose bytes 10 and 11
are zero, so the v4 branch of the Go method never applies). -/
def ip6String (p : List Nat) : List Char := ip6StringGroups (ipGroups p)

/-- `normalizeIPForRateLimit` (part_004 lines 144-160): IPv4 and
unparseable inputs are returned unchanged; IPv6 inputs are keyed by the
`/64` network string. -/
def normalizeIPForRateLimit (ipStr : Str) : Str :=
  match parseIP ipStr with
  | none => ipStr
  | some ip =>
    if isV4in6 ip then ipStr
    else ip6String (zeroLowerHalf ip) ++ "/64".data

/-- The group list without its trailing zero groups (used to state the
closed form of the printer on zeroed-lower-half addresses). -/
def dropTrailingZeros (l : List Nat) : List Nat :=
  (l.reverse.dropWhile (· = 0)).reverse

/-- Helper used only in proofs: read back a hexadecimal digit string. -/
def fromHexAux (cs : List Char) : Nat := cs.foldl (fun acc c => acc * 16 + hexVal c) 0

/-! ## Basic facts about the string model -/

theorem toNat_ofNat_of_lt {n : Nat} (h : n < 55296) : (Char.ofNat n).toNat = n := by
  unfold Char.ofNat
  rw [dif_pos (Or.inl h)]
  rfl

theorem lowerChar_toNat (c : Char) :
    (lowerChar c).toNat = if 65 ≤ c.toNat ∧ c.toNat ≤ 90 then c.toNat + 32 else c.toNat := by
  unfold lowerChar
  split
  case isTrue h => exact toNat_ofNat_of_lt (by omega)
  case isFalse h => rfl

theorem lowerChar_of_not {x : Char} (h : ¬ (65 ≤ x.toNat ∧ x.toNat ≤ 90)) :
    lowerChar x = x := by
  unfold lowerChar
  exact if_neg h

theorem lowerChar_idem (c : Char) : lowerChar (lowerChar c) = lowerChar c := by
  by_cases h : 65 ≤ c.toNat ∧ c.toNat ≤ 90
  · refine lowerChar_of_not ?_
    rw [lowerChar_toNat, if_pos h]
    omega
  · rw [lowerChar_of_not h, lowerChar_of_not h]

theorem isSpaceChar_lowerChar (c : Char) : isSpaceChar (lowerChar c) = isSpaceChar c := by
  unfold isSpaceChar
  rw [lowerChar_toNat]
  split
  case isTrue h =>
    have h1 : c.toNat + 32 ≠ 32 := by omega
    have h2 : c.toNat + 32 ≠ 9 := by omega
    have h3 : c.toNat + 32 ≠ 10 := by omega
    have h4 : c.toNat + 32 ≠ 13 := by omega
    have h5 : c.toNat ≠ 32 := by omega
    have h6 : c.toNat ≠ 9 := by omega
    have h7 : c.toNat ≠ 10 := by omega
    have h8 : c.toNat ≠ 13 := by omega
    simp [h1, h2, h3, h4, h5, h6, h7, h8]
  case isFalse h => rfl

theorem lowerStr_idem (s : Str) : lowerStr (lowerStr s) = lowerStr s := by
  unfold lowerStr
  rw [List.map_map]
  exact List.map_congr_left fun a _ => lowerChar_idem a

theorem trimSpace_lowerStr (s : Str) : trimSpace (lowerStr s) = lowerStr (trimSpace s) := by
  have hps : (isSpaceChar ∘ lowerChar) = isSpaceChar := funext fun c => isSpaceChar_lowerChar c
  unfold trimSpace lowerStr
  rw [List.dropWhile_map, hps, ← List.map_reverse, List.dropWhile_map, hps, List.map_reverse]

theorem lowerTrim_lowerStr (s : Str) :
    lowerStr (trimSpace (lowerStr s)) = lowerStr (trimSpace s) := by
  rw [trimSpace_lowerStr, lowerStr_idem]

theorem strTrimSuf_append (suf a : Str) : strTrimSuf suf (a ++ suf) = a := by
  unfold strTrimSuf strHasSuf
  rw [if_pos]
  · rw [List.length_append, Nat.add_sub_cancel, List.take_left]
  · simp

theorem trimSpace_eq_rdrop (s : Str) :
    trimSpace s = List.rdropWhile isSpaceChar (s.dropWhile isSpaceChar) := rfl

theorem trimmed_split {s : Str} (h : trimSpace s = s) :
    s.dropWhile isSpaceChar = s ∧ List.rdropWhile isSpaceChar s = s := by
  rw [trimSpace_eq_rdrop] at h
  have hsuf : s.dropWhile isSpaceChar <:+ s := List.dropWhile_suffix _
  have hlen1 := (List.rdropWhile_prefix isSpaceChar (l := s.dropWhile isSpaceChar)).length_le
  have hlen2 := hsuf.length_le
  have hl := congrArg List.length h
  have hds : s.dropWhile isSpaceChar = s := hsuf.eq_of_length (by omega)
  rw [hds] at h
  exact ⟨hds, h⟩

theorem trimSpace_idem (s : Str) : trimSpace (trimSpace s) = trimSpace s := by
  rw [trimSpace_eq_rdrop (trimSpace s)]
  have h1 : (trimSpace s).dropWhile isSpaceChar = trimSpace s := by
    rw [List.dropWhile_eq_self_iff]
    intro hl
    have hpre : trimSpace s <+: s.dropWhile isSpaceChar := by
      rw [trimSpace_eq_rdrop]
      exact List.rdropWhile_prefix isSpaceChar _
    have hlu : 0 < (s.dropWhile isSpaceChar).length :=
      Nat.lt_of_lt_of_le hl hpre.length_le
    have hget := hpre.getElem (n := 0) hl
    have := List.dropWhile_get_zero_not (p := isSpaceChar) s hlu
    simpa [hget] using this
  rw [h1, trimSpace_eq_rdrop s]
  exact List.rdropWhile_idempotent _ _

theorem trimSpace_cons {c : Char} {R : Str} (hc : isSpaceChar c = false)
    (hR : trimSpace R = R) : trimSpace (c :: R) = c :: R := by
  obtain ⟨h1, h2⟩ := trimmed_split hR
  rw [trimSpace_eq_rdrop, List.dropWhile_cons_of_neg (by simp [hc])]
  rcases List.eq_nil_or_concat R with rfl | ⟨R', x, rfl⟩
  · rw [List.rdropWhile_singleton, if_neg (by simp [hc])]
  · have hx : ¬ isSpaceChar x = true := by
      have := List.rdropWhile_eq_self_iff.mp h2 (by simp)
      simpa [List.getLast_concat] using this
    have hcat : List.rdropWhile isSpaceChar ((c :: R') ++ [x]) = (c :: R') ++ [x] :=
      List.rdropWhile_concat_neg _ _ x hx
    simpa [List.concat_eq_append] using hcat

theorem trimSpace_append {U R : Str} (hU : trimSpace U = U) (hR : trimSpace R = R)
    (hne : R ≠ []) : trimSpace (U ++ R) = U ++ R := by
  obtain ⟨hU1, hU2⟩ := trimmed_split hU
  obtain ⟨hR1, hR2⟩ := trimmed_split hR
  rw [trimSpace_eq_rdrop]
  have hdw : (U ++ R).dropWhile isSpaceChar = U ++ R := by
    rw [List.dropWhile_append]
    cases U with
    | nil => simpa using hR1
    | cons x u' => rw [hU1]; simp
  rw [hdw, List.rdropWhile_eq_self_iff]
  intro hl
  rw [List.getLast_append_of_ne_nil hne]
  exact List.rdropWhile_eq_self_iff.mp hR2 hne

theorem lowerStr_append (a b : Str) : lowerStr (a ++ b) = lowerStr a ++ lowerStr b :=
  List.map_append lowerChar a b

theorem lowerStr_cons (c : Char) (b : Str) : lowerStr (c :: b) = lowerChar c :: lowerStr b :=
  rfl

theorem ghUser_lower (u : Str) : lowerStr (ghUser u) = ghUser u := by
  unfold ghUser
  exact lowerStr_idem _

theorem ghUser_trim (u : Str) : trimSpace (ghUser u) = ghUser u := by
  unfold ghUser
  rw [trimSpace_lowerStr, trimSpace_idem]

theorem ghRepo_lower (r : Str) : lowerStr (ghRepo r) = ghRepo r := by
  unfold ghRepo
  exact lowerStr_idem _

theorem ghRepo_trim (r : Str) : trimSpace (ghRepo r) = ghRepo r := by
  unfold ghRepo
  rw [trimSpace_lowerStr, trimSpace_idem]

theorem lowerTrim_canon {s : Str} (hl : lowerStr s = s) (ht : trimSpace s = s) :
    lowerStr (trimSpace s) = s := by
  rw [ht, hl]


/-- C2: for every configuration whose proxy allow-list (whiteList) is
non-empty, a target (a Docker image for `CheckDockerAccess`, or a GitHub
`(user, repo)` pair for `CheckGitHubAccess`) that matches no allow-list entry
is reported not-allowed, regardless of the deny-list contents; and when both
lists are empty every target is allowed. -/
theorem claim_C2_allowlist_monotone (image u r : Str) (cfg : ProxyLists) :
    (cfg.whiteList ≠ [] →
      matchImageInList (parseDockerImage image) cfg.whiteList = false →
      checkDockerAccess image cfg = (false, "不在Docker镜像白名单内".data)) ∧
    (cfg.whiteList ≠ [] → checkList [u, r] cfg.whiteList = false →
      checkGitHubAccess [u, r] cfg = (false, "不在GitHub仓库白名单内".data)) ∧
    checkDockerAccess image { whiteList := [], blackList := [] } = (true, []) ∧
    checkGitHubAccess [u, r] { whiteList := [], blackList := [] } = (true, []) := by
  refine ⟨fun h1 h2 => ?_, fun h1 h2 => ?_, ?_, ?_⟩
  · have hl : 0 < cfg.whiteList.length := List.length_pos.mpr h1
    simp only [checkDockerAccess, h2]
    simp [hl]
  · have hl : 0 < cfg.whiteList.length := List.length_pos.mpr h1
    simp only [checkGitHubAccess, h2]
    simp [hl]
  · simp [checkDockerAccess]
  · simp [checkGitHubAccess]

/-- Witness for C2 at concrete inputs: image `nginx` against allow-list
`[team/app]`, and GitHub pair `(alice, tool)` against the same allow-list. -/
theorem claim_C2_allowlist_monotone_witness :
    checkDockerAccess "nginx".data
        { whiteList := ["team/app".data], blackList := ["library/nginx".data] } =
      (false, "不在Docker镜像白名单内".data) ∧
    checkGitHubAccess ["alice".data, "tool".data]
        { whiteList := ["team/app".data], blackList := [] } =
      (false, "不在GitHub仓库白名单内".data) := by
  constructor
  · exact (claim_C2_allowlist_monotone "nginx".data "alice".data "tool".data
      ⟨["team/app".data], ["library/nginx".data]⟩).1 (by decide) (by decide)
  · exact (claim_C2_allowlist_monotone "nginx".data "alice".data "tool".data
      ⟨["team/app".data], []⟩).2.1 (by decide) (by decide)

/-- C3 counterexample: the GitHub matcher `checkList` does NOT support the
repo-only wildcard form `*/repo`: user `alice` paired with repo `repo` fails
against the list `[*/repo]`, although the image matcher accepts the analogous
`alice/repo` against the same list (and likewise `*/repo*` fails for GitHub). -/
theorem claim_C3_counterexample :
    checkList ["alice".data, "repo".data] ["*/repo".data] = false ∧
    matchImageInList (parseDockerImage "alice/repo".data) ["*/repo".data] = true ∧
    checkList ["alice".data, "repo".data] ["*/repo*".data] = false ∧
    matchImageInList (parseDockerImage "alice/repo".data) ["*/repo*".data] = true := by
  decide

theorem listAny_congr {α : Type} {f g : α → Bool} {l : List α}
    (h : ∀ a ∈ l, f a = g a) : l.any f = l.any g := by
  induction l with
  | nil => rfl
  | cons x xs ih =>
    simp only [List.any_cons, h x (List.mem_cons_self x xs),
      ih fun a ha => h a (List.mem_cons_of_mem x ha)]

theorem matchImageItem_lower_item (fn ns rr it0 : Str) :
    matchImageItem fn ns rr (lowerStr it0) = matchImageItem fn ns rr it0 := by
  unfold matchImageItem
  rw [lowerTrim_lowerStr]

theorem matchImageItem_lower_repo (fn ns rr it0 : Str)
    (h : ¬ (strHasPre ['*', '/'] (lowerStr (trimSpace it0)) = true ∧
            strHasSuf ['*'] (strTrimPre ['*', '/'] (lowerStr (trimSpace it0))) = true)) :
    matchImageItem fn ns (lowerStr rr) it0 = matchImageItem fn ns rr it0 := by
  unfold matchImageItem
  by_cases h1 : lowerStr (trimSpace it0) = []
  · simp [h1]
  · rw [if_neg h1, if_neg h1]
    by_cases h2 : strHasPre ['*', '/'] (lowerStr (trimSpace it0)) = true
    · have h3 : strHasSuf ['*'] (strTrimPre ['*', '/'] (lowerStr (trimSpace it0))) = false := by
        rcases Bool.eq_false_or_eq_true
          (strHasSuf ['*'] (strTrimPre ['*', '/'] (lowerStr (trimSpace it0)))) with hb | hb
        · exact absurd ⟨h2, hb⟩ h
        · exact hb
      simp only [h2, h3, lowerStr_idem, Bool.false_eq_true, if_false]
    · have h2f : strHasPre ['*', '/'] (lowerStr (trimSpace it0)) = false := by
        rcases Bool.eq_false_or_eq_true
          (strHasPre ['*', '/'] (lowerStr (trimSpace it0))) with hb | hb
        · exact absurd hb h2
        · exact hb
      simp only [h2f, Bool.false_and]

/-- C7 (amended): image-list matching is case-insensitive in the list
entries (lower-casing every entry never changes the result), and it is
case-insensitive in the image for every entry form EXCEPT the repo-only
prefix wildcard `*/prefix*` — for lists with no such entry, lower-casing the
image's parsed fields never changes the result. -/
theorem claim_C7_amended (info : DockerImageInfo) (l : List Str) :
    matchImageInList info (l.map lowerStr) = matchImageInList info l ∧
    ((∀ it ∈ l, ¬ (strHasPre ['*', '/'] (lowerStr (trimSpace it)) = true ∧
        strHasSuf ['*'] (strTrimPre ['*', '/'] (lowerStr (trimSpace it))) = true)) →
      matchImageInList (lowerInfo info) l = matchImageInList info l) := by
  constructor
  · unfold matchImageInList
    rw [List.any_map]
    exact listAny_congr fun a _ => matchImageItem_lower_item _ _ _ a
  · intro h
    unfold matchImageInList lowerInfo
    simp only [lowerStr_idem]
    exact listAny_congr fun a ha => matchImageItem_lower_repo _ _ _ a (h a ha)

/-- Witness for the amended C7: parsed image `Alice/Repo` against the list
`[" ALICE "]` (an entry that is not a `*/…*` wildcard). -/
theorem claim_C7_amended_witness :
    matchImageInList (lowerInfo (parseDockerImage "Alice/Repo".data)) [" ALICE ".data] =
      matchImageInList (parseDockerImage "Alice/Repo".data) [" ALICE ".data] :=
  (claim_C7_amended (parseDockerImage "Alice/Repo".data) [" ALICE ".data]).2 (by decide)

theorem checkList_pair (u r : Str) (l : List Str) :
    checkList [u, r] l =
      l.any (checkListItem (ghUser u ++ '/' :: ghRepo r) (ghUser u)) := by
  unfold checkList
  simp

theorem lowerTrim_glue {U R : Str} (c : Char) (hU1 : lowerStr U = U)
    (hU2 : trimSpace U = U) (hR1 : lowerStr R = R) (hR2 : trimSpace R = R)
    (hc1 : isSpaceChar c = false) (hc2 : lowerChar c = c) :
    lowerStr (trimSpace (U ++ c :: R)) = U ++ c :: R := by
  rw [trimSpace_append hU2 (trimSpace_cons hc1 hR2) (by simp),
    lowerStr_append, hU1, lowerStr_cons, hc2, hR1]

/-- C3 (amended): `checkList` (hence `CheckGitHubAccess`) strips a trailing
`.git` from the repo and supports the exact, user-level (`u`, `u/*`), prefix
(`p*`) and subtree entry forms of the image matcher, but NOT the repo-only
wildcard forms `*/repo` and `*/repo*`: a `*/repo` entry never matches a
user/repo pair whose normalised user does not contain `*` (conjunct 7),
contrary to the image matcher. -/
theorem claim_C3_amended (u r : Str) (l : List Str) :
    (strHasSuf ".git".data r = false →
      checkList [u, r ++ ".git".data] l = checkList [u, r] l) ∧
    checkList [u, r] [ghUser u ++ '/' :: ghRepo r] = true ∧
    (ghUser u ≠ [] → checkList [u, r] [ghUser u] = true) ∧
    checkList [u, r] [ghUser u ++ ['/', '*']] = true ∧
    (∀ p : Str, lowerStr p = p → trimSpace p = p →
      strHasPre p (ghUser u ++ '/' :: ghRepo r) = true →
      checkList [u, r] [p ++ ['*']] = true) ∧
    (∀ e : Str, lowerStr e = e → trimSpace e = e → e ≠ [] →
      strHasPre (e ++ ['/']) (ghUser u ++ '/' :: ghRepo r) = true →
      checkList [u, r] [e] = true) ∧
    (ghUser u ≠ [] → ghRepo r ≠ [] → ('*' : Char) ∉ ghUser u →
      ('*' : Char) ∉ ghRepo r →
      checkList [u, r] ['*' :: '/' :: ghRepo r] = false) := by
  have hU1 := ghUser_lower u
  have hU2 := ghUser_trim u
  have hR1 := ghRepo_lower r
  have hR2 := ghRepo_trim r
  refine ⟨?_, ?_, ?_, ?_, ?_, ?_, ?_⟩
  · intro hng
    rw [checkList_pair, checkList_pair]
    have : ghRepo (r ++ ".git".data) = ghRepo r := by
      unfold ghRepo
      rw [strTrimSuf_append]
      unfold strTrimSuf
      rw [if_neg (by simp [hng])]
    rw [this]
  · rw [checkList_pair]
    simp only [List.any_cons, List.any_nil, Bool.or_false]
    unfold checkListItem
    rw [lowerTrim_glue '/' hU1 hU2 hR1 hR2 (by decide) (by decide)]
    rw [if_neg (by simp)]
    simp
  · intro hne
    rw [checkList_pair]
    simp only [List.any_cons, List.any_nil, Bool.or_false]
    unfold checkListItem
    rw [lowerTrim_canon hU1 hU2]
    rw [if_neg hne]
    simp
  · rw [checkList_pair]
    simp only [List.any_cons, List.any_nil, Bool.or_false]
    unfold checkListItem
    have hglue : lowerStr (trimSpace (ghUser u ++ ['/', '*'])) = ghUser u ++ ['/', '*'] :=
      lowerTrim_glue '/' hU1 hU2 (by decide) (by decide) (by decide) (by decide)
    rw [hglue, if_neg (by simp)]
    simp
  · intro p hp1 hp2 hpre
    rw [checkList_pair]
    simp only [List.any_cons, List.any_nil, Bool.or_false]
    unfold checkListItem
    have hglue : lowerStr (trimSpace (p ++ ['*'])) = p ++ ['*'] := by
      rw [trimSpace_append hp2 (by decide) (by simp), lowerStr_append, hp1]
      rfl
    rw [hglue, if_neg (by simp)]
    have hsuf : strHasSuf ['*'] (p ++ ['*']) = true := by
      simp [strHasSuf]
    have htrim : strTrimSuf ['*'] (p ++ ['*']) = p := strTrimSuf_append _ _
    rw [hsuf, htrim]
    simp [hpre]
  · intro e he1 he2 hene hpre
    rw [checkList_pair]
    simp only [List.any_cons, List.any_nil, Bool.or_false]
    unfold checkListItem
    rw [lowerTrim_canon he1 he2, if_neg hene]
    simp [hpre]
  · intro hune hrne hstaru hstarr
    rw [checkList_pair]
    simp only [List.any_cons, List.any_nil, Bool.or_false]
    unfold checkListItem
    have hitem : lowerStr (trimSpace ('*' :: '/' :: ghRepo r)) = '*' :: '/' :: ghRepo r := by
      rw [trimSpace_cons (by decide) (trimSpace_cons (by decide) hR2),
        lowerStr_cons, lowerStr_cons, hR1]
      rfl
    rw [hitem, if_neg (by simp)]
    have ha : ¬ (ghUser u ++ '/' :: ghRepo r = '*' :: '/' :: ghRepo r) := by
      cases hu : ghUser u with
      | nil => intro h; simp at h
      | cons x u' =>
        intro h
        have hx : x = '*' := by
          have := congrArg (List.headD · ' ') h
          simpa using this
        apply hstaru
        rw [hu, hx]
        exact List.mem_cons_self _ _
    have hb : ¬ (('*' :: '/' :: ghRepo r : Str) = ghUser u) := by
      intro h
      apply hstaru
      rw [← h]
      exact List.mem_cons_self _ _
    have hc : ¬ (('*' :: '/' :: ghRepo r : Str) = ghUser u ++ ['/', '*']) := by
      cases hu : ghUser u with
      | nil => intro h; simp at h
      | cons x u' =>
        intro h
        have hx : '*' = x := by
          have := congrArg (List.headD · ' ') h
          simpa using this
        apply hstaru
        rw [hu, ← hx]
        exact List.mem_cons_self _ _
    have hd : strHasSuf ['*'] ('*' :: '/' :: ghRepo r) = false := by
      simp only [strHasSuf]
      rw [Bool.eq_false_iff]
      intro hsuf
      rw [List.isSuffixOf_iff_suffix] at hsuf
      rcases List.suffix_cons_iff.mp hsuf with h | h
      · have := congrArg List.length h
        simp at this
      · rcases List.suffix_cons_iff.mp h with h' | h'
        · have hlen := congrArg List.length h'
          simp at hlen
          rcases List.eq_nil_or_concat (ghRepo r) with hnil | _
          · exact hrne hnil
          · have := congrArg (List.headD · ' ') h'
            simp at this
        · exact hstarr (h'.subset (List.mem_singleton_self '*'))
    have he : strHasPre ('*' :: '/' :: (ghRepo r ++ ['/'])) (ghUser u ++ '/' :: ghRepo r)
        = false := by
      simp only [strHasPre]
      rw [Bool.eq_false_iff]
      intro hpre
      rw [List.isPrefixOf_iff_prefix] at hpre
      cases hu : ghUser u with
      | nil =>
        rw [hu] at hpre
        simp only [List.nil_append, List.cons_append] at hpre
        rcases List.cons_prefix_cons.mp hpre with ⟨h1, _⟩
        exact absurd h1 (by decide)
      | cons x u' =>
        rw [hu] at hpre
        simp only [List.cons_append] at hpre
        rcases List.cons_prefix_cons.mp hpre with ⟨h1, _⟩
        apply hstaru
        rw [hu, ← h1]
        exact List.mem_cons_self _ _
    simp [ha, hb, hc, hd, he]

/-- Witness for the amended C3 at concrete inputs `(alice, repo)`. -/
theorem claim_C3_amended_witness :
    checkList ["alice".data, "repo.git".data] ["other/x".data] =
      checkList ["alice".data, "repo".data] ["other/x".data] ∧
    checkList ["alice".data, "repo".data]
      [ghUser "alice".data ++ '/' :: ghRepo "repo".data] = true ∧
    checkList ["alice".data, "repo".data] ['*' :: '/' :: ghRepo "repo".data] = false := by
  refine ⟨(claim_C3_amended "alice".data "repo".data ["other/x".data]).1 (by decide),
    (claim_C3_amended "alice".data "repo".data []).2.1, ?_⟩
  exact (claim_C3_amended "alice".data "repo".data []).2.2.2.2.2.2
    (by decide) (by decide) (by decide) (by decide)

theorem lastIndexOfChar_eq_none {c : Char} {s : Str} (h : c ∉ s) :
    lastIndexOfChar c s = none := by
  induction s with
  | nil => rfl
  | cons x rest ih =>
    have hne : ¬ (x = c) := fun hx => h (by rw [← hx]; exact List.mem_cons_self x rest)
    unfold lastIndexOfChar
    rw [ih fun hm => h (List.mem_cons_of_mem x hm), if_neg hne]

theorem lastIndexOfChar_ne_of_none {c : Char} {s : Str}
    (h : lastIndexOfChar c s = none) : c ∉ s := by
  induction s with
  | nil => simp
  | cons x rest ih =>
    unfold lastIndexOfChar at h
    cases h' : lastIndexOfChar c rest with
    | some k => rw [h'] at h; exact absurd h (by simp)
    | none =>
      rw [h'] at h
      intro hm
      rcases List.mem_cons.mp hm with rfl | hm'
      · rw [if_pos rfl] at h; exact absurd h (by simp)
      · exact ih h' hm'

theorem lastIndexOfChar_append {c : Char} {a b : Str} (hb : c ∉ b) :
    lastIndexOfChar c (a ++ c :: b) = some a.length := by
  induction a with
  | nil =>
    rw [List.nil_append]
    unfold lastIndexOfChar
    rw [lastIndexOfChar_eq_none hb, if_pos rfl]
    rfl
  | cons x a' ih =>
    show lastIndexOfChar c (x :: (a' ++ c :: b)) = _
    unfold lastIndexOfChar
    rw [ih]
    rfl

theorem lastIndexOfChar_some {c : Char} {s : Str} {idx : Nat}
    (h : lastIndexOfChar c s = some idx) :
    s.take idx ++ c :: s.drop (idx + 1) = s ∧ c ∉ s.drop (idx + 1) := by
  induction s generalizing idx with
  | nil => exact absurd h (by simp [lastIndexOfChar])
  | cons x rest ih =>
    unfold lastIndexOfChar at h
    cases h' : lastIndexOfChar c rest with
    | some k =>
      rw [h'] at h
      have hidx : idx = k + 1 := by
        have := Option.some.inj h
        omega
      subst hidx
      obtain ⟨heq, hnot⟩ := ih h'
      constructor
      · show x :: (rest.take k ++ c :: rest.drop (k + 1)) = x :: rest
        rw [heq]
      · exact hnot
    | none =>
      rw [h'] at h
      by_cases hx : x = c
      · rw [if_pos hx] at h
        have hidx : idx = 0 := by
          have := Option.some.inj h
          omega
        subst hidx
        subst hx
        refine ⟨rfl, ?_⟩
        exact lastIndexOfChar_ne_of_none h'
      · rw [if_neg hx] at h
        exact absurd h (by simp)

theorem splitOn_no_sep {s : Str} (h : ('/' : Char) ∉ s) : s.splitOn '/' = [s] := by
  unfold List.splitOn
  exact List.splitOnP_eq_single _ _ fun x hx hbeq =>
    h (by simp only [beq_iff_eq] at hbeq; rwa [hbeq] at hx)

theorem splitOn_sep {a b : Str} (h : ('/' : Char) ∉ a) :
    (a ++ '/' :: b).splitOn '/' = a :: b.splitOn '/' := by
  unfold List.splitOn
  exact List.splitOnP_first _ _
    (fun x hx hbeq => h (by simp only [beq_iff_eq] at hbeq; rwa [hbeq] at hx)) '/'
    (by simp) b

theorem slash_decomp {s : Str} (h : ('/' : Char) ∈ s) :
    s.takeWhile (· != '/') ++ '/' :: (s.dropWhile (· != '/')).tail = s ∧
    ('/' : Char) ∉ s.takeWhile (· != '/') := by
  have hdne : s.dropWhile (· != '/') ≠ [] := by
    intro hnil
    rw [List.dropWhile_eq_nil_iff] at hnil
    have := hnil '/' h
    simp at this
  have hhead : (s.dropWhile (· != '/')).head hdne = '/' := by
    have := List.head_dropWhile_not (· != '/') s hdne
    simpa using this
  constructor
  · have hph := List.head_cons_tail _ hdne
    rw [hhead] at hph
    rw [hph]
    exact List.takeWhile_append_dropWhile _ _
  · intro hm
    have := List.mem_takeWhile_imp hm
    simp at this

theorem splitOn_getD_zero (s : Str) :
    (s.splitOn '/').getD 0 [] = s.takeWhile (· != '/') := by
  by_cases h : ('/' : Char) ∈ s
  · obtain ⟨hdec, hnot⟩ := slash_decomp h
    conv_lhs => rw [← hdec]
    rw [splitOn_sep hnot]
    rfl
  · rw [splitOn_no_sep h]
    have : s.takeWhile (· != '/') = s := by
      rw [List.takeWhile_eq_self_iff]
      intro x hx
      simp
      intro heq
      exact h (heq ▸ hx)
    rw [this]
    rfl

theorem splitOn_length_ge_two {s : Str} (h : ('/' : Char) ∈ s) :
    2 ≤ (s.splitOn '/').length := by
  obtain ⟨hdec, hnot⟩ := slash_decomp h
  rw [← hdec, splitOn_sep hnot]
  have := List.splitOnP_ne_nil (fun x => x == '/') ((s.dropWhile (· != '/')).tail)
  have hlen : 0 < (((s.dropWhile (· != '/')).tail).splitOn '/').length :=
    List.length_pos.mpr this
  simp only [List.length_cons]
  omega

theorem splitOn_length_lt_two {s : Str} (h : ('/' : Char) ∉ s) :
    (s.splitOn '/').length = 1 := by
  rw [splitOn_no_sep h]
  rfl

theorem contains_eq_false_of {s : Str} {c : Char} (h : c ∉ s) : s.contains c = false := by
  simp [List.contains, h]

theorem contains_eq_true_of {s : Str} {c : Char} (h : c ∈ s) : s.contains c = true := by
  simp [List.contains, h]

/-- C6: `ParseDockerImage` satisfies, for every image string:
(1) `FullName = namespace ++ "/" ++ repository`;
(2) when the string contains no `/`, the namespace is `library` and the
    repository is the string with the tag portion removed;
(3) the tag is the portion after the last `:` when that portion is nonempty
    and contains no `/`;
(4) otherwise (no `:`; or the portion after the last `:` contains `/` or is
    empty) the tag defaults to `latest`;
(5) the first path segment is excluded (treated as an upstream host) exactly
    when it contains a `.`: a dot-free first segment becomes the namespace,
    while a dotted first segment is dropped and the namespace/repository come
    from the remaining segments (`library` when only one segment remains). -/
theorem claim_C6_parseDockerImage (image : Str) :
    ((parseDockerImage image).fullName =
      (parseDockerImage image).ns ++ '/' :: (parseDockerImage image).repo) ∧
    (('/' : Char) ∉ image →
      (parseDockerImage image).ns = "library".data ∧
      (parseDockerImage image).repo = (stripTag image).1) ∧
    (∀ pre post : Str, strTrimPre "docker://".data image = pre ++ ':' :: post →
      (':' : Char) ∉ post → ('/' : Char) ∉ post → post ≠ [] →
      (parseDockerImage image).tag = post) ∧
    ((∀ pre post : Str, strTrimPre "docker://".data image = pre ++ ':' :: post →
        (':' : Char) ∉ post → (('/' : Char) ∈ post ∨ post = [])) →
      (parseDockerImage image).tag = "latest".data) ∧
    (∀ seg rest : Str,
      (stripTag (strTrimPre "docker://".data image)).1 = seg ++ '/' :: rest →
      ('/' : Char) ∉ seg →
      ((('.' : Char) ∉ seg →
        (parseDockerImage image).ns = seg ∧
        (parseDockerImage image).repo = rest.takeWhile (· != '/')) ∧
       (('.' : Char) ∈ seg →
        ((('/' : Char) ∈ rest →
          (parseDockerImage image).ns = rest.takeWhile (· != '/') ∧
          (parseDockerImage image).repo =
            ((rest.dropWhile (· != '/')).tail).takeWhile (· != '/')) ∧
         (('/' : Char) ∉ rest →
          (parseDockerImage image).ns = "library".data ∧
          (parseDockerImage image).repo = rest))))) := by
  refine ⟨rfl, ?_, ?_, ?_, ?_⟩
  · intro hs
    have h1 : strTrimPre "docker://".data image = image := by
      unfold strTrimPre
      rw [if_neg]
      intro hpre
      simp only [strHasPre, List.isPrefixOf_iff_prefix] at hpre
      exact hs (hpre.subset (by decide))
    have h2 : ('/' : Char) ∉ (stripTag image).1 := by
      unfold stripTag
      cases hli : lastIndexOfChar ':' image with
      | none => exact hs
      | some idx =>
        by_cases hcc : (image.drop (idx + 1)).contains '/'
        · simp only [hcc, if_true]
          exact hs
        · simp only [hcc, Bool.false_eq_true, if_false]
          intro hm
          exact hs (List.take_subset idx image hm)
    have hc : (stripTag image).1.contains '/' = false := contains_eq_false_of h2
    simp only [parseDockerImage, h1, hc, Bool.false_eq_true, if_false]
    exact ⟨by trivial, by trivial⟩
  · intro pre post hdec hcp hsp hne
    have hlast : lastIndexOfChar ':' (strTrimPre "docker://".data image) =
        some pre.length := by
      rw [hdec]
      exact lastIndexOfChar_append hcp
    have hdrop : (strTrimPre "docker://".data image).drop (pre.length + 1) = post := by
      rw [hdec, show pre ++ ':' :: post = (pre ++ [':']) ++ post by simp,
        List.drop_left' (by simp)]
    have hstrip : stripTag (strTrimPre "docker://".data image) =
        ((strTrimPre "docker://".data image).take pre.length, post) := by
      unfold stripTag
      rw [hlast]
      simp only [hdrop, contains_eq_false_of hsp, Bool.false_eq_true, if_false]
    simp only [parseDockerImage, hstrip, if_neg hne]
  · intro hall
    cases hli : lastIndexOfChar ':' (strTrimPre "docker://".data image) with
    | none =>
      have hstrip : stripTag (strTrimPre "docker://".data image) =
          (strTrimPre "docker://".data image, []) := by
        unfold stripTag
        rw [hli]
      simp [parseDockerImage, hstrip]
    | some idx =>
      obtain ⟨heq, hnot⟩ := lastIndexOfChar_some hli
      rcases hall ((strTrimPre "docker://".data image).take idx)
          ((strTrimPre "docker://".data image).drop (idx + 1)) heq.symm hnot with hmem | hpost
      · have hstrip : stripTag (strTrimPre "docker://".data image) =
            (strTrimPre "docker://".data image, []) := by
          unfold stripTag
          rw [hli]
          simp only [contains_eq_true_of hmem, if_true]
        simp [parseDockerImage, hstrip]
      · have hstrip : stripTag (strTrimPre "docker://".data image) =
            ((strTrimPre "docker://".data image).take idx, []) := by
          unfold stripTag
          rw [hli]
          simp only [hpost]
          rfl
        simp [parseDockerImage, hstrip]
  · intro seg rest hdec hslash
    have hmem : ('/' : Char) ∈ (stripTag (strTrimPre "docker://".data image)).1 := by
      rw [hdec]
      exact List.mem_append_right seg (List.mem_cons_self '/' rest)
    have hcont := contains_eq_true_of hmem
    have hsplit : (stripTag (strTrimPre "docker://".data image)).1.splitOn '/' =
        seg :: rest.splitOn '/' := by
      rw [hdec]
      exact splitOn_sep hslash
    have hlen2 : 2 ≤ ((stripTag (strTrimPre "docker://".data image)).1.splitOn '/').length := by
      rw [hsplit, List.length_cons]
      have := List.length_pos.mpr (List.splitOnP_ne_nil (fun x => x == '/') rest)
      unfold List.splitOn
      omega
    have hl2 : (seg :: rest.splitOn '/').length ≥ 2 := by
      have h0 : rest.splitOn '/' ≠ [] := by
        unfold List.splitOn
        exact List.splitOnP_ne_nil _ rest
      have := List.length_pos.mpr h0
      simp only [List.length_cons]
      omega
    constructor
    · intro hdot
      simp only [parseDockerImage, hcont, if_true, hsplit]
      rw [if_pos hl2]
      have hg0 : (seg :: rest.splitOn '/').getD 0 [] = seg := rfl
      rw [hg0, contains_eq_false_of hdot]
      simp only [Bool.false_eq_true, if_false]
      refine ⟨by trivial, ?_⟩
      show (rest.splitOn '/').getD 0 [] = _
      exact splitOn_getD_zero rest
    · intro hdot
      constructor
      · intro hr
        obtain ⟨hdec2, hnot2⟩ := slash_decomp hr
        have hsplit2 : rest.splitOn '/' =
            rest.takeWhile (· != '/') :: ((rest.dropWhile (· != '/')).tail).splitOn '/' := by
          conv_lhs => rw [← hdec2]
          exact splitOn_sep hnot2
        have hl3 : (seg :: rest.splitOn '/').length ≥ 3 := by
          rw [hsplit2]
          have h0 : ((rest.dropWhile (· != '/')).tail).splitOn '/' ≠ [] := by
            unfold List.splitOn
            exact List.splitOnP_ne_nil _ _
          have := List.length_pos.mpr h0
          simp only [List.length_cons]
          omega
        simp only [parseDockerImage, hcont, if_true, hsplit]
        rw [if_pos hl2]
        have hg0 : (seg :: rest.splitOn '/').getD 0 [] = seg := rfl
        rw [hg0, contains_eq_true_of hdot]
        simp only [if_true]
        rw [if_pos hl3]
        constructor
        · show (rest.splitOn '/').getD 0 [] = _
          exact splitOn_getD_zero rest
        · show (rest.splitOn '/').getD 1 [] = _
          rw [hsplit2]
          show (((rest.dropWhile (· != '/')).tail).splitOn '/').getD 0 [] = _
          exact splitOn_getD_zero _
      · intro hr
        have hsplit1 : rest.splitOn '/' = [rest] := splitOn_no_sep hr
        have hl3 : ¬ (seg :: rest.splitOn '/').length ≥ 3 := by
          rw [hsplit1]
          simp
        simp only [parseDockerImage, hcont, if_true, hsplit]
        rw [if_pos hl2]
        have hg0 : (seg :: rest.splitOn '/').getD 0 [] = seg := rfl
        rw [hg0, contains_eq_true_of hdot]
        simp only [if_true]
        rw [if_neg hl3]
        refine ⟨by trivial, ?_⟩
        show (rest.splitOn '/').getD 0 [] = _
        rw [hsplit1]
        rfl

/-- Witness for C6 at the concrete image `ghcr.io/owner/img:v1`. -/
theorem claim_C6_parseDockerImage_witness :
    (parseDockerImage "ghcr.io/owner/img:v1".data).tag = "v1".data ∧
    (parseDockerImage "ghcr.io/owner/img:v1".data).ns = "owner".data ∧
    (parseDockerImage "nginx".data).ns = "library".data := by
  refine ⟨?_, ?_, ?_⟩
  · exact (claim_C6_parseDockerImage "ghcr.io/owner/img:v1".data).2.2.1
      "ghcr.io/owner/img".data "v1".data (by decide) (by decide) (by decide) (by decide)
  · exact (((claim_C6_parseDockerImage "ghcr.io/owner/img:v1".data).2.2.2.2
      "ghcr.io".data "owner/img".data (by decide) (by decide)).2 (by decide)).1 (by decide)
      |>.1
  · exact ((claim_C6_parseDockerImage "nginx".data).2.1 (by decide)).1

/-- C7 counterexample: image-list matching is not case-insensitive for the
repo-only prefix wildcard `*/repo*`: the images `someuser/MyRepo` and
`someuser/myrepo` differ only in letter case, yet against the list
`[*/myrepo*]` the first does not match and the second does. -/
theorem claim_C7_counterexample :
    matchImageInList (parseDockerImage "someuser/MyRepo".data) ["*/myrepo*".data] = false ∧
    matchImageInList (parseDockerImage "someuser/myrepo".data) ["*/myrepo*".data] = true := by
  decide


theorem proxyWithRedirect_guard (up : Nat → UpResp) (chk : Str → Bool)
    (fileSize : Int) {rc : Nat} (h : rc > 20) :
    proxyWithRedirect up chk fileSize rc =
      (.loop508 "重定向次数过多，可能存在循环重定向".data, 0) := by
  rw [proxyWithRedirect]
  rw [dif_pos (show rc > maxRedirects by unfold maxRedirects; omega)]

theorem proxyWithRedirect_le (up : Nat → UpResp) (chk : Str → Bool)
    (fileSize : Int) :
    ∀ n rc, 21 - rc ≤ n → (proxyWithRedirect up chk fileSize rc).2 ≤ 21 - rc := by
  intro n
  induction n with
  | zero =>
    intro rc h
    rw [proxyWithRedirect_guard up chk fileSize (by omega)]
    simp
  | succ n ih =>
    intro rc h
    by_cases hg : rc > 20
    · rw [proxyWithRedirect_guard up chk fileSize hg]
      simp
    · rw [proxyWithRedirect,
        dif_neg (show ¬ rc > maxRedirects by unfold maxRedirects; omega)]
      cases herr : (up rc).err
      · simp only [herr, Bool.false_eq_true, if_false]
        by_cases hm : (match (up rc).contentLength with
          | some size => decide (size > fileSize)
          | none => false) = true
        · simp only [hm, if_true]
          omega
        · simp only [eq_false_of_ne_true hm, Bool.false_eq_true, if_false]
          cases hloc : (up rc).location with
          | none =>
            show (1 : Nat) ≤ 21 - rc
            omega
          | some loc =>
            by_cases hchk : chk loc = true
            · simp only [hchk, if_true]
              omega
            · simp only [eq_false_of_ne_true hchk, Bool.false_eq_true, if_false]
              have hrec := ih (rc + 1) (by omega)
              show (proxyWithRedirect up chk fileSize (rc + 1)).2 + 1 ≤ 21 - rc
              omega
      · simp only [herr, if_true]
        omega

/-- C1 counterexample: with an upstream whose every response carries a
Location that matches no proxy pattern, the chain starting at
`redirectCount = 0` issues exactly 21 outbound upstream requests — the
21st request is made before the guard fires — refuting the stated bound of
at most 20 outbound requests. -/
theorem claim_C1_counterexample :
    (proxyWithRedirect loopUpstream (fun _ => false) 0 0).2 = 21 ∧
    ¬ ((proxyWithRedirect loopUpstream (fun _ => false) 0 0).2 ≤ 20) := by
  have key : ∀ n rc, 21 - rc = n →
      (proxyWithRedirect loopUpstream (fun _ => false) 0 rc).2 = n := by
    intro n
    induction n with
    | zero =>
      intro rc h
      rw [proxyWithRedirect_guard _ _ _ (by omega)]
    | succ n ih =>
      intro rc h
      rw [proxyWithRedirect,
        dif_neg (show ¬ rc > maxRedirects by unfold maxRedirects; omega)]
      have hrec := ih (rc + 1) (by omega)
      simp [loopUpstream, hrec]
  have h21 := key 21 0 rfl
  exact ⟨h21, by omega⟩

/-- C1 (amended): for every request handled by the generic URL proxy and
every sequence of upstream Location responses followed server-side, the
proxy makes at most 21 outbound upstream requests in total (the initial
request plus at most 20 followed redirects); when the redirect count
exceeds 20 it responds with status 508 (LoopDetected) and the message
`重定向次数过多，可能存在循环重定向` (which begins with `重定向次数过多`)
without issuing another upstream request. -/
theorem claim_C1_amended (up : Nat → UpResp) (chk : Str → Bool) (fileSize : Int) :
    (proxyWithRedirect up chk fileSize 0).2 ≤ 21 ∧
    (∀ rc, rc > 20 → proxyWithRedirect up chk fileSize rc =
      (.loop508 "重定向次数过多，可能存在循环重定向".data, 0)) ∧
    strHasPre "重定向次数过多".data "重定向次数过多，可能存在循环重定向".data = true := by
  refine ⟨?_, fun rc h => proxyWithRedirect_guard up chk fileSize h, by decide⟩
  have := proxyWithRedirect_le up chk fileSize 21 0 (by omega)
  omega

/-- Witness for the amended C1: the concrete looping upstream reaches the
508 guard at `redirectCount = 21`. -/
theorem claim_C1_amended_witness :
    proxyWithRedirect loopUpstream (fun _ => false) 0 21 =
      (.loop508 "重定向次数过多，可能存在循环重定向".data, 0) :=
  (claim_C1_amended loopUpstream (fun _ => false) 0).2.1 21 (by omega)


/-- C8: when parsing fails during a hot reload the published configuration
is left unchanged — `hotReloadWithViper` on the error path returns the
store state unmodified (so `setConfig` is not applied), and every subsequent
`GetConfig` call returns exactly what it returned before the failed reload;
`setConfig` is reached only on the success path. -/
theorem claim_C8_reload_failure (e : Str) (env : EnvVars) (s : ConfigStoreState)
    (now : Int) (cfg : AppConfig) :
    hotReloadWithViper (.error e) env s = s ∧
    getConfig now (hotReloadWithViper (.error e) env s) = getConfig now s ∧
    hotReloadWithViper (.ok cfg) env s = setConfig (overrideFromEnv env cfg) s :=
  ⟨rfl, rfl, rfl⟩


/-- C9: for every non-exempt request through the rate-limit middleware,
when the resolved client IP falls in the deny CIDR list the response is
HTTP 403 with JSON body \x7b"error":"您已被限制访问"\x7d and the request is
aborted before the handler; when the IP is not denied but its token bucket
has no token available the response is HTTP 429 with JSON body
\x7b"error":"请求频率过快，暂时限制访问"\x7d and the request is aborted. -/
theorem claim_C9_rate_limit_responses (path : Str) (xff xrip xoff : Option Str)
    (clientIP : Str) (blacklist whitelist : List (List Nat × Nat))
    (bucketAllow : Bool) :
    isExemptPath path = false →
    (isIPInCIDRList
        (extractIPFromAddress
          (extractIPFromAddress (resolveClientIP xff xrip xoff clientIP)))
        blacklist = true →
      rateLimitMiddleware path xff xrip xoff clientIP blacklist whitelist bucketAllow =
        .denied 403 (ginJSONError "您已被限制访问".data)) ∧
    ((getLimiterDecision (extractIPFromAddress (resolveClientIP xff xrip xoff clientIP))
        blacklist whitelist bucketAllow).1 = true →
     (getLimiterDecision (extractIPFromAddress (resolveClientIP xff xrip xoff clientIP))
        blacklist whitelist bucketAllow).2 = false →
      rateLimitMiddleware path xff xrip xoff clientIP blacklist whitelist bucketAllow =
        .limited 429 (ginJSONError "请求频率过快，暂时限制访问".data)) := by
  intro hex
  constructor
  · intro hbl
    unfold rateLimitMiddleware
    rw [hex]
    simp only [Bool.false_eq_true, if_false]
    unfold getLimiterDecision
    simp only [hbl]
    simp
  · intro hal hlb
    unfold rateLimitMiddleware
    rw [hex]
    simp only [Bool.false_eq_true, if_false]
    have hd : getLimiterDecision
        (extractIPFromAddress (resolveClientIP xff xrip xoff clientIP))
        blacklist whitelist bucketAllow = (true, false) := by
      have h1 := hal
      have h2 := hlb
      exact Prod.ext h1 h2
    simp only [hd]
    simp

/-- Witness for C9: client 1.2.3.4 against the deny list built from
`["1.2.3.4"]` receives the 403 body, and client 5.6.7.8 with an empty
bucket receives the 429 body. -/
theorem claim_C9_rate_limit_responses_witness :
    rateLimitMiddleware "/x".data none none none "1.2.3.4".data
        (buildCIDRList ["1.2.3.4".data]) [] true =
      .denied 403 (ginJSONError "您已被限制访问".data) ∧
    rateLimitMiddleware "/x".data none none none "5.6.7.8".data
        (buildCIDRList ["1.2.3.4".data]) [] false =
      .limited 429 (ginJSONError "请求频率过快，暂时限制访问".data) := by
  constructor
  · exact (claim_C9_rate_limit_responses "/x".data none none none "1.2.3.4".data
      (buildCIDRList ["1.2.3.4".data]) [] true (by decide)).1 (by decide)
  · exact (claim_C9_rate_limit_responses "/x".data none none none "5.6.7.8".data
      (buildCIDRList ["1.2.3.4".data]) [] false (by decide)).2 (by decide) (by decide)

/-- C5: the limiter's CIDR-list construction promotes every `/`-free entry
by appending `"/32"` — also for IPv6 entries.  Evaluated at the entry
`2001:db8::1`: the resulting network is `2001:db8::/32` with prefix length
32, which contains the different address `2001:db8:ffff::5`; so an IPv6
entry is NOT promoted to a single-host `/128`.  For IPv4 entries the `/32`
promotion does give a single-host network. -/
theorem claim_C5_single_ip_promotion_bug :
    buildCIDRList ["2001:db8::1".data] =
      [([0x20, 0x01, 0x0d, 0xb8, 0, 0, 0, 0, 0, 0, 0, 0, 0, 0, 0, 0], 32)] ∧
    parseIP "2001:db8:ffff::5".data =
      some [0x20, 0x01, 0x0d, 0xb8, 0xff, 0xff, 0, 0, 0, 0, 0, 0, 0, 0, 0, 5] ∧
    ipNetContains ([0x20, 0x01, 0x0d, 0xb8, 0, 0, 0, 0, 0, 0, 0, 0, 0, 0, 0, 0], 32)
      [0x20, 0x01, 0x0d, 0xb8, 0xff, 0xff, 0, 0, 0, 0, 0, 0, 0, 0, 0, 5] = true ∧
    isIPInCIDRList "2001:db8:ffff::5".data (buildCIDRList ["2001:db8::1".data]) = true ∧
    buildCIDRList ["1.2.3.4".data] = [([1, 2, 3, 4], 32)] ∧
    isIPInCIDRList "1.2.3.5".data (buildCIDRList ["1.2.3.4".data]) = false := by
  decide


theorem pre_char_agree {p q s : Str} (hp : strHasPre p s = true)
    (hq : strHasPre q s = true) {i : Nat} (hip : i < p.length) (hiq : i < q.length) :
    p[i] = q[i] := by
  simp only [strHasPre, List.isPrefixOf_iff_prefix] at hp hq
  have h1 := hp.getElem hip
  have h2 := hq.getElem hiq
  rw [h1, h2]

theorem matchExp4_shape {s : Str} {m : List Str} (h : matchExp4 s = some m) :
    strHasPre "gist.github".data (stripScheme s) = true ∧ ∃ u, m = [u] := by
  unfold matchExp4 at h
  simp only [bind, Option.bind_eq_some] at h
  obtain ⟨r1, h1, h⟩ := h
  obtain ⟨r2, h2, h⟩ := h
  obtain ⟨⟨u, r3⟩, h3, h⟩ := h
  constructor
  · unfold stripPreOpt at h1
    by_cases hb : strHasPre "gist.github".data (stripScheme s) = true
    · exact hb
    · rw [if_neg hb] at h1
      exact absurd h1 (by simp)
  · by_cases h4 : hasInnerSlash r3 = true
    · rw [if_pos h4] at h
      exact ⟨u, (Option.some.inj h).symm⟩
    · rw [if_neg h4] at h
      exact absurd h (by simp)

theorem gist_not_github {t : Str} (hg : strHasPre "gist.github".data t = true) :
    strHasPre "github.com/".data t = false := by
  by_contra hc
  rw [Bool.not_eq_false] at hc
  have := pre_char_agree hc hg (i := 2) (by decide) (by decide)
  exact absurd this (by decide)

theorem gist_not_raw {t : Str} (hg : strHasPre "gist.github".data t = true) :
    strHasPre "raw.github".data t = false := by
  by_contra hc
  rw [Bool.not_eq_false] at hc
  have := pre_char_agree hc hg (i := 0) (by decide) (by decide)
  exact absurd this (by decide)

/-- C10: every target URL matching the gist pattern (exps[4], the only
pattern with a single capture group) is rejected with 403 by the generic
proxy handler under every configuration, including empty allow/deny lists,
because `CheckGitHubAccess` rejects every match list with fewer than two
captured groups; such a request is never forwarded upstream. -/
theorem claim_C10_gist_always_403 (rawPath0 : Str) (wl bl : List Str)
    (m : List Str) (h : matchExp4 (normalizeTarget rawPath0) = some m) :
    checkURL (normalizeTarget rawPath0) = some m ∧
    m.length = 1 ∧
    checkGitHubAccess m ⟨wl, bl⟩ = (false, "无效的GitHub仓库格式".data) ∧
    handler rawPath0 ⟨wl, bl⟩ = .forbidden 403 "无效的GitHub仓库格式".data := by
  obtain ⟨hpre, u, rfl⟩ := matchExp4_shape h
  have hgh := gist_not_github hpre
  have hraw := gist_not_raw hpre
  have h0 : matchExp0 (normalizeTarget rawPath0) = none := by
    unfold matchExp0 stripPreOpt
    rw [hgh]
    simp
  have h1 : matchExp1 (normalizeTarget rawPath0) = none := by
    unfold matchExp1 stripPreOpt
    rw [hgh]
    simp
  have h2 : matchExp2 (normalizeTarget rawPath0) = none := by
    unfold matchExp2 stripPreOpt
    rw [hgh]
    simp
  have h3 : matchExp3 (normalizeTarget rawPath0) = none := by
    unfold matchExp3 stripPreOpt
    rw [hraw]
    simp
  have hcheck : checkURL (normalizeTarget rawPath0) = some [u] := by
    unfold checkURL
    rw [h0, h1, h2, h3, h]
    rfl
  have hacc : checkGitHubAccess [u] ⟨wl, bl⟩ = (false, "无效的GitHub仓库格式".data) := by
    unfold checkGitHubAccess
    simp
  refine ⟨hcheck, rfl, hacc, ?_⟩
  unfold handler
  simp only [hcheck, hacc]
  rfl

/-- Witness for C10 at the concrete gist URL
`https://gist.github.com/u/abc123/raw`. -/
theorem claim_C10_gist_always_403_witness :
    handler "https://gist.github.com/u/abc123/raw".data ⟨[], []⟩ =
      .forbidden 403 "无效的GitHub仓库格式".data :=
  (claim_C10_gist_always_403 "https://gist.github.com/u/abc123/raw".data [] []
    ["u".data] (by decide)).2.2.2


/-! ## Claim C4: IPv6 /64 aggregation of the rate-limit key -/
theorem toNat_hexDigitChar {m : Nat} (hm : m < 16) :
    (hexDigitChar m).toNat = if m < 10 then 48 + m else 87 + m := by
  unfold hexDigitChar
  split
  · exact toNat_ofNat_of_lt (by omega)
  · exact toNat_ofNat_of_lt (by omega)

theorem hexVal_hexDigitChar {m : Nat} (hm : m < 16) : hexVal (hexDigitChar m) = m := by
  unfold hexVal
  rw [toNat_hexDigitChar hm]
  by_cases h10 : m < 10
  · rw [if_pos h10, if_pos (by omega)]
    omega
  · rw [if_neg h10, if_neg (by omega), if_neg (by omega)]
    omega

theorem fromHexAux_append (xs : List Char) (c : Char) :
    fromHexAux (xs ++ [c]) = fromHexAux xs * 16 + hexVal c := by
  unfold fromHexAux
  rw [List.foldl_append]
  rfl

theorem toHexCore_roundtrip : ∀ fuel n, n < 16 ^ fuel → fromHexAux (toHexCore fuel n) = n := by
  intro fuel
  induction fuel with
  | zero =>
    intro n h
    have hn : n = 0 := by omega
    subst hn
    rfl
  | succ fuel ih =>
    intro n h
    unfold toHexCore
    by_cases h16 : n < 16
    · rw [if_pos h16]
      show 0 * 16 + hexVal (hexDigitChar n) = n
      rw [hexVal_hexDigitChar h16]
      omega
    · rw [if_neg h16]
      rw [fromHexAux_append]
      have hdiv : n / 16 < 16 ^ fuel := by
        rw [Nat.div_lt_iff_lt_mul (by omega)]
        calc n < 16 ^ (fuel + 1) := h
          _ = 16 ^ fuel * 16 := by rw [Nat.pow_succ]
      rw [ih (n / 16) hdiv, hexVal_hexDigitChar (Nat.mod_lt _ (by omega))]
      omega

theorem toHexChars_inj {n m : Nat} (hn : n < 65536) (hm : m < 65536)
    (h : toHexChars n = toHexChars m) : n = m := by
  have h1 := toHexCore_roundtrip 8 n (lt_of_lt_of_le hn (by norm_num))
  have h2 := toHexCore_roundtrip 8 m (lt_of_lt_of_le hm (by norm_num))
  unfold toHexChars at h
  rw [← h1, ← h2, h]

theorem toHexChars_ne_nil (n : Nat) : toHexChars n ≠ [] := by
  unfold toHexChars
  show toHexCore (7 + 1) n ≠ []
  unfold toHexCore
  split <;> simp

theorem colon_notin_toHexCore : ∀ fuel n, (':' : Char) ∉ toHexCore fuel n := by
  intro fuel
  induction fuel with
  | zero => intro n; simp [toHexCore]
  | succ fuel ih =>
    intro n
    show ':' ∉ (if n < 16 then [hexDigitChar n] else
      toHexCore fuel (n / 16) ++ [hexDigitChar (n % 16)])
    have hdig : ∀ m, m < 16 → ':' ≠ hexDigitChar m := by
      intro m hm hcol
      have hco := congrArg Char.toNat hcol
      rw [toNat_hexDigitChar hm] at hco
      have h58 : (':' : Char).toNat = 58 := rfl
      rw [h58] at hco
      split at hco <;> omega
    split
    · rename_i h16
      simp only [List.mem_singleton]
      exact hdig n h16
    · simp only [List.mem_append, List.mem_singleton]
      rintro (hc | hc)
      · exact ih _ hc
      · exact hdig (n % 16) (Nat.mod_lt _ (by omega)) hc

theorem colon_notin_toHexChars (n : Nat) : (':' : Char) ∉ toHexChars n :=
  colon_notin_toHexCore 8 n

theorem intercalate_colon_inj {xs ys : List (List Char)}
    (hx : ∀ t ∈ xs, (':' : Char) ∉ t) (hy : ∀ t ∈ ys, (':' : Char) ∉ t)
    (hx0 : ([] : List Char) ∉ xs) (hy0 : ([] : List Char) ∉ ys)
    (h : List.intercalate [':'] xs = List.intercalate [':'] ys) : xs = ys := by
  cases xs with
  | nil =>
    cases ys with
    | nil => rfl
    | cons y ys =>
      exfalso
      have h2 := List.splitOn_intercalate _ ':' hy (List.cons_ne_nil y ys)
      rw [← h] at h2
      have h3 : (List.intercalate [':'] ([] : List (List Char))).splitOn ':' = [[]] := rfl
      rw [h3] at h2
      apply hy0
      rw [← h2]
      exact List.mem_singleton_self _
  | cons x xs =>
    cases ys with
    | nil =>
      exfalso
      have h2 := List.splitOn_intercalate _ ':' hx (List.cons_ne_nil x xs)
      rw [h] at h2
      have h3 : (List.intercalate [':'] ([] : List (List Char))).splitOn ':' = [[]] := rfl
      rw [h3] at h2
      apply hx0
      rw [← h2]
      exact List.mem_singleton_self _
    | cons y ys =>
      have h1 := List.splitOn_intercalate _ ':' hx (List.cons_ne_nil x xs)
      have h2 := List.splitOn_intercalate _ ':' hy (List.cons_ne_nil y ys)
      rw [← h1, ← h2, h]

theorem map_toHexChars_inj : ∀ {u v : List Nat}, (∀ n ∈ u, n < 65536) →
    (∀ n ∈ v, n < 65536) → u.map toHexChars = v.map toHexChars → u = v := by
  intro u
  induction u with
  | nil =>
    intro v _ _ h
    cases v with
    | nil => rfl
    | cons a v => simp at h
  | cons a u ih =>
    intro v hu hv h
    cases v with
    | nil => simp at h
    | cons b v =>
      simp only [List.map_cons, List.cons.injEq] at h
      have hab : a = b :=
        toHexChars_inj (hu a (by simp)) (hv b (by simp)) h.1
      rw [hab, ih (fun n hn => hu n (by simp [hn])) (fun n hn => hv n (by simp [hn])) h.2]

theorem dtz_pad (l : List Nat) :
    l = dropTrailingZeros l ++
      List.replicate (l.length - (dropTrailingZeros l).length) 0 := by
  unfold dropTrailingZeros
  conv_lhs => rw [← l.reverse_reverse]
  conv_lhs => rw [← List.takeWhile_append_dropWhile (fun x => decide (x = 0)) l.reverse]
  rw [List.reverse_append]
  congr 1
  have hall : ∀ x ∈ l.reverse.takeWhile (fun x => decide (x = 0)), x = 0 := by
    intro x hx
    have := List.mem_takeWhile_imp hx
    simpa using this
  have hrep : (l.reverse.takeWhile (fun x => decide (x = 0))).reverse =
      List.replicate (l.reverse.takeWhile (fun x => decide (x = 0))).length 0 := by
    apply List.eq_replicate_iff.mpr
    constructor
    · simp
    · intro b hb
      rw [List.mem_reverse] at hb
      exact hall b hb
  rw [hrep]
  congr 1
  have hlen : l.reverse.length =
      (l.reverse.takeWhile (fun x => decide (x = 0))).length +
      (l.reverse.dropWhile (fun x => decide (x = 0))).length := by
    conv_lhs => rw [← List.takeWhile_append_dropWhile (fun x => decide (x = 0)) l.reverse]
    rw [List.length_append]
  simp only [List.length_reverse] at hlen ⊢
  omega

theorem dtz_inj {x y : List Nat} (hlen : x.length = y.length)
    (h : dropTrailingZeros x = dropTrailingZeros y) : x = y := by
  have px := dtz_pad x
  have py := dtz_pad y
  rw [px, py, h, hlen]

set_option maxHeartbeats 1000000 in
theorem ip6StringGroups_closed (a b c d : Nat) :
    ip6StringGroups [a, b, c, d, 0, 0, 0, 0] =
      List.intercalate [':'] ((dropTrailingZeros [a, b, c, d]).map toHexChars) ++
        [':', ':'] := by
  by_cases ha : a = 0 <;> by_cases hb : b = 0 <;> by_cases hc : c = 0 <;>
    by_cases hd : d = 0 <;>
    simp [ip6StringGroups, findZeroRun, zeroRunLen, ip6PrintLoop, dropTrailingZeros,
      List.intercalate, ha, hb, hc, hd]

theorem parseOctet_le {s : Str} {n : Nat} {rest : Str}
    (h : parseOctet s = some (n, rest)) : n ≤ 255 := by
  unfold parseOctet at h
  split at h
  · exact absurd h (by simp)
  · rename_i m c heq
    split at h
    · exact absurd h (by simp)
    · split at h
      · exact absurd h (by simp)
      · rename_i h255 hlead
        simp only [Option.some.injEq, Prod.mk.injEq] at h
        omega

theorem parseIPv4_wf {s : Str} {b4 : List Nat} (h : parseIPv4 s = some b4) :
    b4.length = 4 ∧ ∀ x ∈ b4, x < 256 := by
  unfold parseIPv4 at h
  simp only [bind, Option.bind_eq_some] at h
  obtain ⟨⟨a, s1⟩, ha, h⟩ := h
  obtain ⟨s2, hs2, h⟩ := h
  obtain ⟨⟨b, s3⟩, hb, h⟩ := h
  obtain ⟨s4, hs4, h⟩ := h
  obtain ⟨⟨c, s5⟩, hc, h⟩ := h
  obtain ⟨s6, hs6, h⟩ := h
  obtain ⟨⟨d, s7⟩, hd, h⟩ := h
  split at h
  · simp only [Option.some.injEq] at h
    subst h
    refine ⟨rfl, ?_⟩
    intro x hx
    have h1 := parseOctet_le ha
    have h2 := parseOctet_le hb
    have h3 := parseOctet_le hc
    have h4 := parseOctet_le hd
    simp only [List.mem_cons, List.not_mem_nil, or_false] at hx
    rcases hx with rfl | rfl | rfl | rfl <;> omega
  · exact absurd h (by simp)

theorem parseIPv6Loop_wf (fuel : Nat) : ∀ s acc ell out,
    parseIPv6Loop fuel s acc ell = some out →
    (∀ x ∈ acc, x < 256) → acc.length % 2 = 0 → acc.length ≤ 16 →
    (∀ e, ell = some e → e ≤ acc.length) →
    (∀ x ∈ out.1, x < 256) ∧ out.1.length ≤ 16 ∧
      (∀ e, out.2 = some e → e ≤ out.1.length) := by
  induction fuel with
  | zero =>
    intro s acc ell out h hb hev hl hell
    unfold parseIPv6Loop at h
    split at h
    · split at h
      · simp only [Option.some.injEq] at h
        subst h
        exact ⟨hb, hl, hell⟩
      · exact absurd h (by simp)
    · exact Option.noConfusion h
  | succ fuel ih =>
    intro s acc ell out h hb hev hl hell
    unfold parseIPv6Loop at h
    split at h
    · split at h
      · simp only [Option.some.injEq] at h
        subst h
        exact ⟨hb, hl, hell⟩
      · exact absurd h (by simp)
    · rename_i hlen16
      split at h
      · exact Option.noConfusion h
      · rename_i fa fb heqf
        obtain rfl : fb = fuel := by omega
        have hacc2b : ∀ n, ¬ 65535 < n → ∀ x ∈ acc ++ [n / 256, n % 256], x < 256 := by
          intro n hn x hx
          rcases List.mem_append.mp hx with hx | hx
          · exact hb x hx
          · simp only [List.mem_cons, List.not_mem_nil, or_false] at hx
            rcases hx with rfl | rfl <;> omega
        have hacc2l : (acc ++ [0, 0]).length = acc.length + 2 := by simp
        have hle14 : acc.length ≤ 14 := by omega
        split at h
        · exact Option.noConfusion h
        · rename_i n c hxeq
          split at h
          · exact Option.noConfusion h
          · rename_i hn
            split at h
            · split at h
              · exact Option.noConfusion h
              · split at h
                · exact Option.noConfusion h
                · rename_i h12 h4
                  split at h
                  · exact Option.noConfusion h
                  · rename_i b4 hb4
                    simp only [Option.some.injEq] at h
                    subst h
                    obtain ⟨hb4l, hb4b⟩ := parseIPv4_wf hb4
                    refine ⟨?_, ?_, ?_⟩
                    · intro x hx
                      rcases List.mem_append.mp hx with hx | hx
                      · exact hb x hx
                      · exact hb4b x hx
                    · simp only [List.length_append, hb4l]
                      omega
                    · intro e he
                      have := hell e he
                      simp only [List.length_append, hb4l]
                      omega
            · rename_i hdot
              by_cases hs2 : List.drop c s = []
              · rw [if_pos hs2] at h
                simp only [Option.some.injEq] at h
                subst h
                refine ⟨hacc2b n hn, by simp; omega, ?_⟩
                intro e he
                have := hell e he
                simp
                omega
              · rw [if_neg hs2] at h
                by_cases hcol : (List.drop c s).headD ' ' ≠ ':' ∨ (List.drop c s).length = 1
                · rw [if_pos hcol] at h
                  exact Option.noConfusion h
                · rw [if_neg hcol] at h
                  by_cases h3c : (List.drop 1 (List.drop c s)).headD ' ' = ':'
                  · rw [if_pos h3c] at h
                    by_cases hes : ell.isSome = true
                    · rw [if_pos hes] at h
                      exact Option.noConfusion h
                    · rw [if_neg hes] at h
                      by_cases hs4 : List.drop 1 (List.drop 1 (List.drop c s)) = []
                      · rw [if_pos hs4] at h
                        simp only [Option.some.injEq] at h
                        subst h
                        refine ⟨hacc2b n hn, by simp; omega, ?_⟩
                        intro e he
                        simp only [Option.some.injEq] at he
                        simp only [List.length_append, List.length_cons, List.length_nil] at he ⊢
                        omega
                      · rw [if_neg hs4] at h
                        exact ih _ _ _ _ h (hacc2b n hn) (by simp; omega)
                          (by simp; omega)
                          (by intro e he
                              simp only [Option.some.injEq] at he
                              simp only [List.length_append, List.length_cons,
                                List.length_nil] at he ⊢
                              omega)
                  · rw [if_neg h3c] at h
                    exact ih _ _ _ _ h (hacc2b n hn) (by simp; omega) (by simp; omega)
                      (by intro e he; have := hell e he; simp; omega)

theorem parseIPv6_wf {s : Str} {p : List Nat} (h : parseIPv6 s = some p) :
    p.length = 16 ∧ ∀ x ∈ p, x < 256 := by
  have replicate_case : ∀ q : List Nat, List.replicate 16 0 = q →
      q.length = 16 ∧ ∀ x ∈ q, x < 256 := by
    intro q hq
    subst hq
    refine ⟨by simp, ?_⟩
    intro x hx
    rw [List.eq_of_mem_replicate hx]
    omega
  have tail_case : ∀ (acc : List Nat) (ell : Option Nat),
      (∀ x ∈ acc, x < 256) → acc.length ≤ 16 → (∀ e, ell = some e → e ≤ acc.length) →
      (if acc.length < 16 then
        match ell with
        | none => none
        | some e => some (acc.take e ++ List.replicate (16 - acc.length) 0 ++ acc.drop e)
       else
        match ell with
        | some _ => none
        | none => some acc) = some p →
      p.length = 16 ∧ ∀ x ∈ p, x < 256 := by
    intro acc ell hbytes hle hellb h
    split at h
    · rename_i hlt16
      cases ell with
      | none => exact Option.noConfusion h
      | some e =>
        simp only [Option.some.injEq] at h
        subst h
        have hee : e ≤ acc.length := hellb e rfl
        refine ⟨?_, ?_⟩
        · simp only [List.length_append, List.length_take, List.length_drop,
            List.length_replicate]
          omega
        · intro x hx
          rcases List.mem_append.mp hx with hx | hx
          · rcases List.mem_append.mp hx with hx | hx
            · exact hbytes x (List.mem_of_mem_take hx)
            · rw [List.eq_of_mem_replicate hx]
              omega
          · exact hbytes x (List.mem_of_mem_drop hx)
    · rename_i hge16
      cases ell with
      | some e => exact Option.noConfusion h
      | none =>
        simp only [Option.some.injEq] at h
        subst h
        exact ⟨by omega, hbytes⟩
  unfold parseIPv6 at h
  split at h
  · rename_i hc
    by_cases hsd : List.drop 2 s = []
    · rw [if_pos ⟨rfl, hsd⟩] at h
      simp only [Option.some.injEq] at h
      exact replicate_case p h
    · rw [if_neg (by simp [hsd])] at h
      split at h
      · exact Option.noConfusion h
      · rename_i acc ell hloop
        have hwf := parseIPv6Loop_wf 9 _ [] _ (acc, ell) hloop (by simp) (by simp) (by simp)
          (by intro e he; simp only [Option.some.injEq] at he; omega)
        exact tail_case acc ell hwf.1 hwf.2.1 (fun e he => hwf.2.2 e he) h
  · rename_i hc
    have hfalse : ¬ (((s, (none : Option Nat)).2 = some 0) ∧ (s, (none : Option Nat)).1 = []) := by
      simp
    rw [if_neg hfalse] at h
    split at h
    · exact Option.noConfusion h
    · rename_i acc ell hloop
      have hwf := parseIPv6Loop_wf 9 _ [] _ (acc, ell) hloop (by simp) (by simp) (by simp)
        (by intro e he; exact Option.noConfusion he)
      exact tail_case acc ell hwf.1 hwf.2.1 (fun e he => hwf.2.2 e he) h

theorem parseIP_wf {s : Str} {p : List Nat} (h : parseIP s = some p) :
    p.length = 16 ∧ ∀ x ∈ p, x < 256 := by
  unfold parseIP at h
  split at h
  · split at h
    · cases hp4 : parseIPv4 s with
      | none => rw [hp4] at h; exact Option.noConfusion h
      | some b4 =>
        rw [hp4] at h
        simp only [Option.map_some', Option.some.injEq] at h
        subst h
        obtain ⟨hb4l, hb4b⟩ := parseIPv4_wf hp4
        refine ⟨by simp [hb4l], ?_⟩
        intro x hx
        rcases List.mem_append.mp hx with hx | hx
        · simp only [List.mem_cons, List.not_mem_nil, or_false] at hx
          rcases hx with rfl | rfl | rfl | rfl | rfl | rfl | rfl | rfl | rfl | rfl | rfl | rfl <;>
            omega
        · exact hb4b x hx
    · exact parseIPv6_wf h
  · exact Option.noConfusion h

theorem dtz_mem {l : List Nat} {v : Nat} (hv : v ∈ dropTrailingZeros l) : v ∈ l := by
  unfold dropTrailingZeros at hv
  rw [List.mem_reverse] at hv
  have := List.Sublist.mem hv (List.dropWhile_sublist _)
  rwa [List.mem_reverse] at this

theorem exists_eight_take {p : List Nat} (h : 8 ≤ p.length) :
    ∃ a b c d e f g k, p.take 8 = [a, b, c, d, e, f, g, k] := by
  rcases p with _ | ⟨a, p⟩; · simp at h
  rcases p with _ | ⟨b, p⟩; · simp at h
  rcases p with _ | ⟨c, p⟩; · simp at h
  rcases p with _ | ⟨d, p⟩; · simp at h
  rcases p with _ | ⟨e, p⟩; · simp at h
  rcases p with _ | ⟨f, p⟩; · simp at h
  rcases p with _ | ⟨g, p⟩; · simp at h
  rcases p with _ | ⟨k, p⟩; · simp at h
  exact ⟨a, b, c, d, e, f, g, k, rfl⟩

theorem ipGroups_half (c0 c1 c2 c3 c4 c5 c6 c7 : Nat) :
    ipGroups ([c0, c1, c2, c3, c4, c5, c6, c7] ++ List.replicate 8 0) =
      [c0 * 256 + c1, c2 * 256 + c3, c4 * 256 + c5, c6 * 256 + c7, 0, 0, 0, 0] := by
  rfl

theorem normalize_eq_of_parse {t : Str} {p : List Nat} (hp : parseIP t = some p) :
    normalizeIPForRateLimit t =
      if isV4in6 p then t else ip6String (zeroLowerHalf p) ++ "/64".data := by
  unfold normalizeIPForRateLimit
  rw [hp]

set_option maxRecDepth 4096 in
/-- Claim C4: the rate limiter keys clients by `normalizeIPForRateLimit`; an
address that parses as IPv4 (To4 non-nil) is keyed by its exact input text,
and two addresses that parse as genuine IPv6 normalise to the same `/64` key
string exactly when their top 64 bits (first eight address bytes) agree. -/
theorem claim_C4_ipv6_aggregation (t1 t2 : Str) (p q : List Nat)
    (hp : parseIP t1 = some p) (hq : parseIP t2 = some q) :
    (isV4in6 p = true → normalizeIPForRateLimit t1 = t1) ∧
    (isV4in6 p = false → isV4in6 q = false →
      (normalizeIPForRateLimit t1 = normalizeIPForRateLimit t2 ↔ p.take 8 = q.take 8)) := by
  constructor
  · intro hv4
    rw [normalize_eq_of_parse hp, if_pos hv4]
  · intro hv1 hv2
    rw [normalize_eq_of_parse hp, if_neg (by simp [hv1]),
      normalize_eq_of_parse hq, if_neg (by simp [hv2])]
    constructor
    · intro h
      have h2 : ip6String (zeroLowerHalf p) = ip6String (zeroLowerHalf q) :=
        List.append_inj_left' h rfl
      obtain ⟨hpl, hpb⟩ := parseIP_wf hp
      obtain ⟨hql, hqb⟩ := parseIP_wf hq
      obtain ⟨a0, a1, a2, a3, a4, a5, a6, a7, hta⟩ := exists_eight_take (p := p) (by omega)
      obtain ⟨b0, b1, b2, b3, b4, b5, b6, b7, htb⟩ := exists_eight_take (p := q) (by omega)
      have hA : ∀ x ∈ [a0, a1, a2, a3, a4, a5, a6, a7], x < 256 := by
        rw [← hta]
        intro x hx
        exact hpb x (List.mem_of_mem_take hx)
      have hB : ∀ x ∈ [b0, b1, b2, b3, b4, b5, b6, b7], x < 256 := by
        rw [← htb]
        intro x hx
        exact hqb x (List.mem_of_mem_take hx)
      unfold ip6String zeroLowerHalf at h2
      rw [hta, htb, ipGroups_half, ipGroups_half,
        ip6StringGroups_closed, ip6StringGroups_closed] at h2
      have h3 := List.append_inj_left' h2 rfl
      have htokc : ∀ l : List Nat, ∀ t ∈ (dropTrailingZeros l).map toHexChars,
          (':' : Char) ∉ t := by
        intro l t ht
        rw [List.mem_map] at ht
        obtain ⟨v, _, rfl⟩ := ht
        exact colon_notin_toHexChars v
      have htokn : ∀ l : List Nat, ([] : List Char) ∉ (dropTrailingZeros l).map toHexChars := by
        intro l hmem
        rw [List.mem_map] at hmem
        obtain ⟨v, _, hv⟩ := hmem
        exact toHexChars_ne_nil v hv
      have h4 := intercalate_colon_inj (htokc _) (htokc _) (htokn _) (htokn _) h3
      have hmemA : ∀ v ∈ dropTrailingZeros [a0 * 256 + a1, a2 * 256 + a3, a4 * 256 + a5,
          a6 * 256 + a7], v < 65536 := by
        intro v hv
        have hv2 := dtz_mem hv
        have h0 := hA a0 (by simp)
        have h1 := hA a1 (by simp)
        have h2 := hA a2 (by simp)
        have h3 := hA a3 (by simp)
        have h4 := hA a4 (by simp)
        have h5 := hA a5 (by simp)
        have h6 := hA a6 (by simp)
        have h7 := hA a7 (by simp)
        simp only [List.mem_cons, List.not_mem_nil, or_false] at hv2
        rcases hv2 with rfl | rfl | rfl | rfl <;> omega
      have hmemB : ∀ v ∈ dropTrailingZeros [b0 * 256 + b1, b2 * 256 + b3, b4 * 256 + b5,
          b6 * 256 + b7], v < 65536 := by
        intro v hv
        have hv2 := dtz_mem hv
        have h0 := hB b0 (by simp)
        have h1 := hB b1 (by simp)
        have h2 := hB b2 (by simp)
        have h3 := hB b3 (by simp)
        have h4 := hB b4 (by simp)
        have h5 := hB b5 (by simp)
        have h6 := hB b6 (by simp)
        have h7 := hB b7 (by simp)
        simp only [List.mem_cons, List.not_mem_nil, or_false] at hv2
        rcases hv2 with rfl | rfl | rfl | rfl <;> omega
      have h5 := map_toHexChars_inj hmemA hmemB h4
      have h6 := dtz_inj (by simp) h5
      simp only [List.cons.injEq, and_true] at h6
      obtain ⟨hg0, hg1, hg2, hg3⟩ := h6
      rw [hta, htb]
      have h0 := hA a0 (by simp); have h1 := hA a1 (by simp)
      have h2' := hA a2 (by simp); have h3' := hA a3 (by simp)
      have h4' := hA a4 (by simp); have h5' := hA a5 (by simp)
      have h6' := hA a6 (by simp); have h7' := hA a7 (by simp)
      have k0 := hB b0 (by simp); have k1 := hB b1 (by simp)
      have k2 := hB b2 (by simp); have k3 := hB b3 (by simp)
      have k4 := hB b4 (by simp); have k5 := hB b5 (by simp)
      have k6 := hB b6 (by simp); have k7 := hB b7 (by simp)
      simp only [List.cons.injEq, and_true]
      refine ⟨by omega, by omega, by omega, by omega, by omega, by omega, by omega, by omega⟩
    · intro h
      have hz : zeroLowerHalf p = zeroLowerHalf q := by
        unfold zeroLowerHalf
        rw [h]
      rw [hz]

theorem claim_C4_ipv6_aggregation_witness :
    normalizeIPForRateLimit "2001:db8::1".data =
      normalizeIPForRateLimit "2001:db8::2:3".data ∧
    normalizeIPForRateLimit "2001:db8::1".data ≠
      normalizeIPForRateLimit "2001:db9::1".data ∧
    normalizeIPForRateLimit "1.2.3.4".data = "1.2.3.4".data := by
  refine ⟨?_, ?_, ?_⟩
  · exact ((claim_C4_ipv6_aggregation "2001:db8::1".data "2001:db8::2:3".data
      [32, 1, 13, 184, 0, 0, 0, 0, 0, 0, 0, 0, 0, 0, 0, 1]
      [32, 1, 13, 184, 0, 0, 0, 0, 0, 0, 0, 0, 0, 2, 0, 3]
      (by decide) (by decide)).2 (by decide) (by decide)).mpr (by decide)
  · intro hcontra
    have := ((claim_C4_ipv6_aggregation "2001:db8::1".data "2001:db9::1".data
      [32, 1, 13, 184, 0, 0, 0, 0, 0, 0, 0, 0, 0, 0, 0, 1]
      [32, 1, 13, 185, 0, 0, 0, 0, 0, 0, 0, 0, 0, 0, 0, 1]
      (by decide) (by decide)).2 (by decide) (by decide)).mp hcontra
    exact absurd this (by decide)
  · exact (claim_C4_ipv6_aggregation "1.2.3.4".data "1.2.3.4".data
      [0, 0, 0, 0, 0, 0, 0, 0, 0, 0, 255, 255, 1, 2, 3, 4]
      [0, 0, 0, 0, 0, 0, 0, 0, 0, 0, 255, 255, 1, 2, 3, 4]
      (by decide) (by decide)).1 (by decide)

end HubProxy
